import Mathlib

/-
Verification of the projection/aggregation engine of the
FinancialCalendarStreamlit repository (src/engine.py, src/database.py).

Modelling conventions:
* Calendar dates are Gregorian triples (year, month, day).  The SQLite layer
  stores dates as zero-padded ISO "YYYY-MM-DD" strings and compares them as
  strings; for valid Gregorian dates string comparison coincides with the
  lexicographic order on (year, month, day), which is the order used here.
* SQLite REAL amounts are modelled as exact rationals (the claims under
  verification are about the exact arithmetic the code performs).
* `dateutil.relativedelta` steps are modelled exactly: day/week steps add
  1/7/14 days, month steps add calendar months, clamping the day of month to
  the last valid day of the target month.
* The unbounded `while` loop of `run_projection` is modelled with explicit
  fuel; a `none` result means the loop did not finish within the given fuel.
-/

namespace FinCal

/-- Gregorian leap-year test, as implemented by Python's calendar machinery
used by `dateutil`/`pandas`. -/
def isLeap (y : Nat) : Bool :=
  (y % 4 == 0 && y % 100 != 0) || (y % 400 == 0)

/-- Number of days of month `m` of year `y` (Gregorian). -/
def daysInMonth (y m : Nat) : Nat :=
  if m = 2 then (if isLeap y then 29 else 28)
  else if m = 4 ∨ m = 6 ∨ m = 9 ∨ m = 11 then 30
  else 31

/-- A calendar date, the model of Python `datetime.date` values and of the
ISO "YYYY-MM-DD" strings stored in SQLite. -/
structure Date where
  year : Nat
  month : Nat
  day : Nat
deriving DecidableEq, Repr

/-- String comparison of zero-padded ISO dates is the lexicographic order on
(year, month, day). -/
def Date.le (a b : Date) : Prop :=
  a.year < b.year ∨ (a.year = b.year ∧ (a.month < b.month ∨ (a.month = b.month ∧ a.day ≤ b.day)))

/-- Strict lexicographic order on dates. -/
def Date.lt (a b : Date) : Prop :=
  a.year < b.year ∨ (a.year = b.year ∧ (a.month < b.month ∨ (a.month = b.month ∧ a.day < b.day)))

instance : LE Date := ⟨Date.le⟩

instance : LT Date := ⟨Date.lt⟩

instance (a b : Date) : Decidable (a ≤ b) := by
  change Decidable (Date.le a b); unfold Date.le; exact inferInstance

instance (a b : Date) : Decidable (a < b) := by
  change Decidable (Date.lt a b); unfold Date.lt; exact inferInstance

/-- A date is a real Gregorian calendar date: the day exists in the month. -/
def Date.Valid (d : Date) : Prop :=
  1 ≤ d.year ∧ 1 ≤ d.month ∧ d.month ≤ 12 ∧ 1 ≤ d.day ∧ d.day ≤ daysInMonth d.year d.month

instance (d : Date) : Decidable d.Valid := by
  unfold Date.Valid; exact inferInstance

/-- Successor day: the daily step of `pd.date_range` and of
`relativedelta(days=1)` on valid dates. -/
def nextDay : Date → Date
  | ⟨y, m, d⟩ =>
    if d < daysInMonth y m then ⟨y, m, d + 1⟩
    else if m < 12 then ⟨y, m + 1, 1⟩
    else ⟨y + 1, 1, 1⟩

/-- Adding `n` days, by iterating the successor day. -/
def addDays (d : Date) : Nat → Date
  | 0 => d
  | n + 1 => addDays (nextDay d) n

/-- `relativedelta(months=n)` for `n ≥ 0`: add `n` calendar months, clamp the
day of month to the last valid day of the target month. -/
def addMonths : Date → Nat → Date
  | ⟨y, m, d⟩, n =>
    let m0 := m - 1 + n
    let y2 := y + m0 / 12
    let m2 := m0 % 12 + 1
    ⟨y2, m2, min d (daysInMonth y2 m2)⟩

/-- A measure that strictly increases along `nextDay`, used as fuel bound for
enumerating date ranges. -/
def dkey : Date → Nat
  | ⟨y, m, d⟩ => 500 * y + 31 * min m 12 + min d 31

/-- Enumeration of the days of `[a, b]` with explicit fuel; the wrapper
`dateRange` always supplies sufficient fuel for valid inputs. -/
def dateRangeF : Nat → Date → Date → List Date
  | 0, _, _ => []
  | n + 1, a, b => if a ≤ b then a :: dateRangeF n (nextDay a) b else []

/-- The days of `[a, b]` in order: the model of `pd.date_range(a, b, freq='D')`. -/
def dateRange (a b : Date) : List Date := dateRangeF (dkey b + 1 - dkey a) a b

/-- The larger of two dates; the model of SQL `MAX` on two ISO date strings. -/
def Date.max (a b : Date) : Date := if a ≤ b then b else a

/-- The smaller of two dates. -/
def Date.min (a b : Date) : Date := if a ≤ b then a else b

/-- SQL `SELECT MAX(date)` over a bag of date values: `none` on the empty bag. -/
def maxDate? : List Date → Option Date
  | [] => none
  | d :: ds =>
    match maxDate? ds with
    | none => some d
    | some m => some (Date.max d m)

/-- Minimum of a bag of dates, the first bin of the `pd.Grouper` day grouping. -/
def minDate? : List Date → Option Date
  | [] => none
  | d :: ds =>
    match minDate? ds with
    | none => some d
    | some m => some (Date.min d m)

/-!
## Data model

The rows of the four user-data tables created by `database.create_tables`
(src/database.py).  REAL amounts are modelled as exact rationals; the
`is_confirmed` INTEGER column keeps its stored 0/1 value.
-/

/-- A row of the `transactions` table. -/
structure Tx where
  txId : Nat
  userId : String
  scheduleId : Option Nat
  categoryId : Option Nat
  date : Date
  description : String
  amount : Rat
  isConfirmed : Nat
deriving DecidableEq, Repr

/-- A row of the `scheduled_transactions` table. -/
structure Schedule where
  scheduleId : Nat
  userId : String
  categoryId : Option Nat
  description : String
  amount : Rat
  frequency : String
  startDate : Date
  endDate : Option Date
deriving DecidableEq, Repr

/-- A row of the `categories` table. -/
structure Category where
  categoryId : Nat
  userId : String
  name : String
  kind : String
deriving DecidableEq, Repr

/-- A row of the `user_settings` table. -/
structure Settings where
  userId : String
  startBalance : Rat
  startDate : Date
deriving DecidableEq, Repr

/-- The SQLite database state: the four user-data tables plus the
autoincrement counter for `transactions.transaction_id`. -/
structure Store where
  transactions : List Tx
  schedules : List Schedule
  categories : List Category
  settings : List Settings
  nextTxId : Nat
deriving DecidableEq, Repr

/-!
## Database operations (src/database.py)

Each definition models the SQL statement of the function of the same name.
-/

/-- `database.add_transaction`: INSERT a transaction row, returning the new
autoincrement row id (`lastrowid`). -/
def add_transaction (s : Store) (user_id : String) (date : Date)
    (category_id : Option Nat) (description : String) (amount : Rat)
    (is_confirmed : Nat) (schedule_id : Option Nat) : Store × Nat :=
  ({ s with
      transactions := s.transactions ++
        [{ txId := s.nextTxId, userId := user_id, scheduleId := schedule_id,
           categoryId := category_id, date := date, description := description,
           amount := amount, isConfirmed := is_confirmed }],
      nextTxId := s.nextTxId + 1 },
   s.nextTxId)

/-- The `LEFT JOIN categories c ON x.category_id = c.category_id` used by the
read queries: the matching category row, if any. -/
def joinCategory (cats : List Category) : Option Nat → Option Category
  | none => none
  | some cid => cats.find? (fun c => c.categoryId = cid)

/-- The `ORDER BY t.date, t.transaction_id` comparison of
`get_all_transactions_after`. -/
def txRowOrder (a b : Tx × Option Category) : Bool :=
  decide (a.1.date < b.1.date ∨ (a.1.date = b.1.date ∧ a.1.txId ≤ b.1.txId))

/-- `database.get_all_transactions_after`: all of the user's transactions
dated on or after `date` (ISO-string comparison = date order), decorated with
the LEFT-JOINed category name/type, ordered by date then transaction id. -/
def get_all_transactions_after (s : Store) (user_id : String) (date : Date) :
    List (Tx × Option Category) :=
  (((s.transactions.filter
      (fun t => decide (t.userId = user_id ∧ date ≤ t.date))).map
      (fun t => (t, joinCategory s.categories t.categoryId))).mergeSort txRowOrder)

/-- `database.get_scheduled_transactions`: the user's schedule rules with the
LEFT-JOINed category name/type. -/
def get_scheduled_transactions (s : Store) (user_id : String) :
    List (Schedule × Option Category) :=
  (s.schedules.filter (fun r => decide (r.userId = user_id))).map
    (fun r => (r, joinCategory s.categories r.categoryId))

/-- `database.get_last_generated_date`: `SELECT MAX(date) FROM transactions
WHERE user_id = ? AND schedule_id = ?`. -/
def get_last_generated_date (s : Store) (user_id : String) (schedule_id : Nat) :
    Option Date :=
  maxDate? ((s.transactions.filter
    (fun t => decide (t.userId = user_id ∧ t.scheduleId = some schedule_id))).map Tx.date)

/-- `database.get_user_settings`: the user's settings row, if present. -/
def get_user_settings (s : Store) (user_id : String) : Option Settings :=
  s.settings.find? (fun st => st.userId = user_id)

/-- `database.delete_category`: null out the category reference on the user's
transactions and schedule rules, then delete the user's category row. -/
def delete_category (s : Store) (category_id : Nat) (user_id : String) : Store :=
  { s with
    transactions := s.transactions.map (fun t =>
      if t.categoryId = some category_id ∧ t.userId = user_id then
        { t with categoryId := none } else t),
    schedules := s.schedules.map (fun r =>
      if r.categoryId = some category_id ∧ r.userId = user_id then
        { r with categoryId := none } else r),
    categories := s.categories.filter (fun c =>
      decide (¬ (c.categoryId = category_id ∧ c.userId = user_id))) }

/-- `database.delete_scheduled_transaction`: delete the rule, and optionally
all unconfirmed transactions generated from it. -/
def delete_scheduled_transaction (s : Store) (schedule_id : Nat)
    (user_id : String) (delete_future : Bool) : Store :=
  let s1 := { s with
    schedules := s.schedules.filter (fun r =>
      decide (¬ (r.scheduleId = schedule_id ∧ r.userId = user_id))) }
  if delete_future then
    { s1 with
      transactions := s1.transactions.filter (fun t =>
        decide (¬ (t.scheduleId = some schedule_id ∧ t.userId = user_id ∧
          t.isConfirmed = 0))) }
  else s1

/-!
## Schedule expansion (src/engine.py, `run_projection`)

The `if frequency == ... / elif ...` chain appears twice in the source (the
initial advance and the loop step); both are the same `stepDate` function.
An unrecognised frequency matches no branch, so the cursor is left unchanged,
exactly as in the source.  The unbounded `while current_date <= loop_end_date`
loop is modelled with fuel: a `none` result means the loop did not finish
within the supplied fuel.
-/

/-- One period of a schedule frequency, as in both `if/elif` chains of
`run_projection`.  An unrecognised frequency leaves the date unchanged. -/
def stepDate (frequency : String) (d : Date) : Date :=
  if frequency = "daily" then addDays d 1
  else if frequency = "weekly" then addDays d 7
  else if frequency = "bi-weekly" then addDays d 14
  else if frequency = "monthly" then addMonths d 1
  else if frequency = "bi-monthly" then addMonths d 2
  else d

/-- The five frequency values recognised by `run_projection`. -/
def supportedFreq (frequency : String) : Prop :=
  frequency = "daily" ∨ frequency = "weekly" ∨ frequency = "bi-weekly" ∨
    frequency = "monthly" ∨ frequency = "bi-monthly"

instance (frequency : String) : Decidable (supportedFreq frequency) := by
  unfold supportedFreq; exact inferInstance

/-- The body of `while current_date <= loop_end_date` of `run_projection`:
insert an unconfirmed occurrence when the cursor has reached the rule's start
date, then step the cursor.  `fuel` bounds the number of iterations; `none`
means the loop was still running when the fuel ran out. -/
def genLoop (user_id : String) (sch : Schedule) (loop_end_date : Date) :
    Nat → Store → Date → Option Store
  | 0, s, current_date =>
    if current_date ≤ loop_end_date then none else some s
  | fuel + 1, s, current_date =>
    if current_date ≤ loop_end_date then
      genLoop user_id sch loop_end_date fuel
        (if sch.startDate ≤ current_date then
          (add_transaction s user_id current_date sch.categoryId
            sch.description sch.amount 0 (some sch.scheduleId)).1
         else s)
        (stepDate sch.frequency current_date)
    else some s

/-- The occurrence row that one loop iteration of `run_projection` inserts
for rule `sch` at cursor date `cur` (the row `add_transaction` builds). -/
def genTx (s : Store) (user_id : String) (sch : Schedule) (cur : Date) : Tx :=
  ⟨s.nextTxId, user_id, some sch.scheduleId, sch.categoryId, cur,
   sch.description, sch.amount, 0⟩

/-- The resume point of one rule: `get_last_generated_date` when some
occurrence exists, the rule's own start date otherwise. -/
def expResume (s : Store) (user_id : String) (sch : Schedule) : Date :=
  match get_last_generated_date s user_id sch.scheduleId with
  | some d => d
  | none => sch.startDate

/-- The generation ceiling: the rule's end date when it is set and earlier
than the projection end date, the projection end date otherwise. -/
def expLoopEnd (sch : Schedule) (projection_end_date : Date) : Date :=
  match sch.endDate with
  | some e => if e < projection_end_date then e else projection_end_date
  | none => projection_end_date

/-- Expansion of one schedule rule, the body of the `for schedule in
schedules` loop of `run_projection`: resume from the last generated date (or
the rule's start date), advance one period, cap the loop at
`min(projection_end_date, rule end date)`, then generate. -/
def expandSchedule (fuel : Nat) (s : Store) (user_id : String) (sch : Schedule)
    (projection_end_date : Date) : Option Store :=
  genLoop user_id sch (expLoopEnd sch projection_end_date) fuel s
    (stepDate sch.frequency (expResume s user_id sch))

/-- `engine.run_projection`: expand every schedule rule of the user (the
Python loop unpacks the first eight columns of each joined row, i.e. the
schedule fields). -/
def run_projection (fuel : Nat) (s : Store) (user_id : String)
    (projection_end_date : Date) : Option Store :=
  ((get_scheduled_transactions s user_id).map Prod.fst).foldlM
    (fun acc sch => expandSchedule fuel acc user_id sch projection_end_date) s

/-!
## Calendar aggregation (src/engine.py, `get_calendar_data`)
-/

/-- A row of the data frame returned by `get_calendar_data`. -/
structure DailySummary where
  date : Date
  credits : Rat
  debits : Rat
  net_change : Rat
  is_actual : Bool
  balance : Rat
deriving DecidableEq, Repr

/-- `row.amount if row.amount > 0 else 0`. -/
def txCredits (t : Tx) : Rat := if 0 < t.amount then t.amount else 0

/-- `row.amount if row.amount <= 0 else 0`. -/
def txDebits (t : Tx) : Rat := if t.amount ≤ 0 then t.amount else 0

/-- The transactions of one calendar day (one bin of the `pd.Grouper` day
grouping). -/
def dayTxs (txs : List Tx) (d : Date) : List Tx :=
  txs.filter (fun t => decide (t.date = d))

/-- Daily credits: the grouped sum of the `credits` column. -/
def dayCredits (txs : List Tx) (d : Date) : Rat :=
  ((dayTxs txs d).map txCredits).sum

/-- Daily debits: the grouped sum of the `debits` column. -/
def dayDebits (txs : List Tx) (d : Date) : Rat :=
  ((dayTxs txs d).map txDebits).sum

/-- The grouped `is_actual` value of one day bin: `(is_confirmed == 1).all()`
(vacuously true on an empty bin). -/
def dayAllConfirmed (txs : List Tx) (d : Date) : Bool :=
  (dayTxs txs d).all (fun t => t.isConfirmed == 1)

/-- The `is_actual` value after the left merge and `fillna(0)` /
`astype(bool)`: day bins exist only between the first and last transaction
date, so a day outside that span gets NaN, which `fillna(0)` turns into 0 and
`astype(bool)` into `false`. -/
def mergedIsActual (txs : List Tx) (minD maxD : Option Date) (d : Date) : Bool :=
  match minD, maxD with
  | some lo, some hi =>
    if lo ≤ d ∧ d ≤ hi then dayAllConfirmed txs d else false
  | _, _ => false

/-- The cumulative-sum pass: one output row per grid day, with the running
balance `start_balance + cumsum(net_change)` threaded through `bal`. -/
def runBalance (txs : List Tx) (minD maxD : Option Date) (bal : Rat) :
    List Date → List DailySummary
  | [] => []
  | d :: ds =>
    let cr := dayCredits txs d
    let db := dayDebits txs d
    { date := d, credits := cr, debits := db, net_change := cr + db,
      is_actual := mergedIsActual txs minD maxD d,
      balance := bal + (cr + db) } ::
      runBalance txs minD maxD (bal + (cr + db)) ds

/-- The transactions branch of `get_calendar_data`: group the fetched
transactions by day, build the dense grid from the user's start date through
the view end, merge, compute the running balance, and slice to the view
window. -/
def calendarMain (st : Settings) (allTx : List Tx)
    (view_start_date view_end_date : Date) : List DailySummary :=
  (runBalance allTx (minDate? (allTx.map Tx.date)) (maxDate? (allTx.map Tx.date))
      st.startBalance (dateRange st.startDate view_end_date)).filter
    (fun r => decide (view_start_date ≤ r.date ∧ r.date ≤ view_end_date))

/-- `engine.get_calendar_data`: daily balances, credits and debits for the
calendar view.  Returns the empty frame when the user has no settings row;
returns a flat series over the view window when the user has no transactions;
otherwise builds the dense grid from the user's start date to the view end,
computes the running balance over it, and slices to the view window. -/
def get_calendar_data (s : Store) (user_id : String)
    (view_start_date view_end_date : Date) : List DailySummary :=
  match get_user_settings s user_id with
  | none => []
  | some st =>
    if ((get_all_transactions_after s user_id st.startDate).map Prod.fst).isEmpty then
      (dateRange view_start_date view_end_date).map (fun d =>
        { date := d, credits := 0, debits := 0, net_change := 0,
          is_actual := true, balance := st.startBalance })
    else
      calendarMain st ((get_all_transactions_after s user_id st.startDate).map Prod.fst)
        view_start_date view_end_date

/-!
## Concrete scenarios

Fixed stores, rules and expected values used by the end-to-end claims and by
the witnesses of the universally quantified claims.
-/

/-- The monthly rule of the end-to-end scenario: amount −100.00, start
2024-01-01, no end date. -/
def c2Schedule : Schedule :=
  ⟨1, "u", none, "rent", -100, "monthly", ⟨2024, 1, 1⟩, none⟩

/-- The end-to-end store: anchor 2024-01-01, starting balance 1000.00, the
single monthly rule, no occurrences yet. -/
def c2Store : Store :=
  ⟨[], [c2Schedule], [], [⟨"u", 1000, ⟨2024, 1, 1⟩⟩], 1⟩

/-- The balance series the code actually produces in the end-to-end scenario:
1000.00 through 2024-01-31, 900.00 through 2024-02-29, 800.00 through
2024-03-31, 700.00 afterwards. -/
def c2ExpectedBalance (d : Date) : Rat :=
  if d ≤ ⟨2024, 1, 31⟩ then 1000
  else if d ≤ ⟨2024, 2, 29⟩ then 900
  else if d ≤ ⟨2024, 3, 31⟩ then 800
  else 700

/-- The month-clamping rule: monthly, starting 2024-01-31. -/
def c6Schedule : Schedule :=
  ⟨1, "u", none, "clamp", 10, "monthly", ⟨2024, 1, 31⟩, none⟩

/-- Empty store holding only the month-clamping rule. -/
def c6Store : Store :=
  ⟨[], [c6Schedule], [], [], 1⟩

/-- A rule with the unrecognised frequency value "yearly". -/
def c4Schedule : Schedule :=
  ⟨1, "u", none, "odd", 5, "yearly", ⟨2024, 1, 1⟩, none⟩

/-- Empty store holding only the unrecognised-frequency rule. -/
def c4Store : Store :=
  ⟨[], [c4Schedule], [], [], 1⟩

/-- A rule with the unrecognised frequency value "annually". -/
def c5BadSchedule : Schedule :=
  ⟨1, "u", none, "bad", -3, "annually", ⟨2024, 2, 1⟩, none⟩

/-- A well-formed daily rule listed after the unrecognised-frequency rule. -/
def c5GoodSchedule : Schedule :=
  ⟨2, "u", none, "good", 7, "daily", ⟨2024, 2, 1⟩, none⟩

/-- Store holding the unrecognised-frequency rule followed by a valid rule. -/
def c5Store : Store :=
  ⟨[], [c5BadSchedule, c5GoodSchedule], [], [], 1⟩

/-- A monthly rule used by the idempotence witness. -/
def c3Schedule : Schedule :=
  ⟨1, "u", none, "x", 5, "monthly", ⟨2024, 1, 1⟩, none⟩

/-- Empty store holding the idempotence-witness rule. -/
def c3Store : Store :=
  ⟨[], [c3Schedule], [], [], 1⟩

/-- The store produced by expanding `c3Schedule` from `c3Store` with horizon
2024-03-15: occurrences on 2024-02-01 and 2024-03-01. -/
def c3StoreAfter : Store :=
  ⟨[⟨1, "u", some 1, none, ⟨2024, 2, 1⟩, "x", 5, 0⟩,
    ⟨2, "u", some 1, none, ⟨2024, 3, 1⟩, "x", 5, 0⟩],
   [c3Schedule], [], [], 3⟩

/-- A store whose anchor date 2024-01-05 lies after typical view starts, with
one confirmed occurrence on the anchor day. -/
def c7Store : Store :=
  ⟨[⟨1, "u", none, none, ⟨2024, 1, 5⟩, "pay", 5, 1⟩], [], [],
   [⟨"u", 0, ⟨2024, 1, 5⟩⟩], 2⟩

/-- A store with anchor 2024-01-01 and a single confirmed occurrence on
2024-01-03. -/
def c8Store : Store :=
  ⟨[⟨1, "u", none, none, ⟨2024, 1, 3⟩, "pay", 5, 1⟩], [], [],
   [⟨"u", 0, ⟨2024, 1, 1⟩⟩], 2⟩

/-- A completely empty store: no settings row for any user. -/
def c9Store : Store :=
  ⟨[], [], [], [], 1⟩

/-- A store with anchor 2024-01-01, balance 100, and one confirmed occurrence
of +5 on 2024-01-02. -/
def c1Store : Store :=
  ⟨[⟨1, "u", none, none, ⟨2024, 1, 2⟩, "w", 5, 1⟩], [], [],
   [⟨"u", 100, ⟨2024, 1, 1⟩⟩], 2⟩

/-- The row `get_calendar_data` returns for day 2024-01-02 of `c1Store` with
view window 2024-01-01 through 2024-01-03. -/
def c1Row : DailySummary :=
  ⟨⟨2024, 1, 2⟩, 5, 0, 5, true, 105⟩

/-- The store the projection run actually produces in the end-to-end
scenario: three occurrences of −100.00, on 2024-02-01, 2024-03-01 and
2024-04-01 (the start date itself is never emitted). -/
def c2StoreAfter : Store :=
  ⟨[⟨1, "u", some 1, none, ⟨2024, 2, 1⟩, "rent", -100, 0⟩,
    ⟨2, "u", some 1, none, ⟨2024, 3, 1⟩, "rent", -100, 0⟩,
    ⟨3, "u", some 1, none, ⟨2024, 4, 1⟩, "rent", -100, 0⟩],
   [c2Schedule], [], [⟨"u", 1000, ⟨2024, 1, 1⟩⟩], 4⟩

/-- The store expansion actually produces for the month-clamping rule:
occurrences on 2024-02-29, 2024-03-29 and 2024-04-29. -/
def c6StoreAfter : Store :=
  ⟨[⟨1, "u", some 1, none, ⟨2024, 2, 29⟩, "clamp", 10, 0⟩,
    ⟨2, "u", some 1, none, ⟨2024, 3, 29⟩, "clamp", 10, 0⟩,
    ⟨3, "u", some 1, none, ⟨2024, 4, 29⟩, "clamp", 10, 0⟩],
   [c6Schedule], [], [], 4⟩

/-!
## Per-user views

The isolation claim compares the data two stores hold for one user.  Writes
by another user shift the shared `transaction_id` autoincrement counter, so a
user's occurrence rows are compared after forgetting that id.
-/

/-- The fields of a transaction row other than the autoincrement id. -/
structure TxData where
  userId : String
  scheduleId : Option Nat
  categoryId : Option Nat
  date : Date
  description : String
  amount : Rat
  isConfirmed : Nat
deriving DecidableEq, Repr

/-- Forget the autoincrement id of a transaction row. -/
def stripTx (t : Tx) : TxData :=
  ⟨t.userId, t.scheduleId, t.categoryId, t.date, t.description, t.amount,
   t.isConfirmed⟩

/-- The rows of each table belonging to one user: everything the user's
reads can observe. -/
def userRows (u : String) (s : Store) :
    List Tx × List Schedule × List Category × List Settings :=
  (s.transactions.filter (fun t => decide (t.userId = u)),
   s.schedules.filter (fun r => decide (r.userId = u)),
   s.categories.filter (fun c => decide (c.userId = u)),
   s.settings.filter (fun st => decide (st.userId = u)))

/-- Two stores agree on user `u`: the same transaction rows (up to the
shared autoincrement id) in the same order, the same schedule rules and the
same settings rows. -/
def AgreeU (u : String) (s1 s2 : Store) : Prop :=
  (s1.transactions.filter (fun t => decide (t.userId = u))).map stripTx =
    (s2.transactions.filter (fun t => decide (t.userId = u))).map stripTx ∧
  s1.schedules.filter (fun r => decide (r.userId = u)) =
    s2.schedules.filter (fun r => decide (r.userId = u)) ∧
  s1.settings.filter (fun st => decide (st.userId = u)) =
    s2.settings.filter (fun st => decide (st.userId = u))

/-- `AgreeU` lifted to the optional store a fuelled expansion returns. -/
def OptAgreeU (u : String) : Option Store → Option Store → Prop
  | none, none => True
  | some t1, some t2 => AgreeU u t1 t2
  | _, _ => False

/-- A store holding data of the two users `"a"` and `"b"`, used by the
isolation witness. -/
def c10Store : Store :=
  ⟨[⟨1, "a", none, some 1, ⟨2024, 1, 2⟩, "t1", 5, 1⟩,
    ⟨2, "b", none, some 2, ⟨2024, 1, 2⟩, "t2", 7, 0⟩],
   [⟨1, "a", some 1, "r1", -2, "daily", ⟨2024, 1, 1⟩, some ⟨2024, 1, 3⟩⟩,
    ⟨2, "b", some 2, "r2", 3, "daily", ⟨2024, 1, 1⟩, some ⟨2024, 1, 3⟩⟩],
   [⟨1, "a", "Cat", "expense"⟩, ⟨2, "b", "Dog", "income"⟩],
   [⟨"a", 10, ⟨2024, 1, 1⟩⟩, ⟨"b", 20, ⟨2024, 1, 1⟩⟩], 3⟩

/-!
## Theorems
-/
theorem Date.le_def {a b : Date} :
    a ≤ b ↔ (a.year < b.year ∨ (a.year = b.year ∧
      (a.month < b.month ∨ (a.month = b.month ∧ a.day ≤ b.day)))) := Iff.rfl

theorem Date.lt_def {a b : Date} :
    a < b ↔ (a.year < b.year ∨ (a.year = b.year ∧
      (a.month < b.month ∨ (a.month = b.month ∧ a.day < b.day)))) := Iff.rfl

theorem Date.le_refl (a : Date) : a ≤ a := by
  simp [Date.le_def]

theorem Date.le_trans {a b c : Date} (h1 : a ≤ b) (h2 : b ≤ c) : a ≤ c := by
  rcases a with ⟨y1, m1, d1⟩; rcases b with ⟨y2, m2, d2⟩; rcases c with ⟨y3, m3, d3⟩
  simp only [Date.le_def] at *; omega

theorem Date.le_total (a b : Date) : a ≤ b ∨ b ≤ a := by
  rcases a with ⟨y1, m1, d1⟩; rcases b with ⟨y2, m2, d2⟩
  simp only [Date.le_def]; omega

theorem Date.not_le {a b : Date} : ¬ a ≤ b ↔ b < a := by
  rcases a with ⟨y1, m1, d1⟩; rcases b with ⟨y2, m2, d2⟩
  simp only [Date.le_def, Date.lt_def]; omega

theorem Date.le_of_lt {a b : Date} (h : a < b) : a ≤ b := by
  rcases a with ⟨y1, m1, d1⟩; rcases b with ⟨y2, m2, d2⟩
  simp only [Date.le_def, Date.lt_def] at *; omega

theorem Date.lt_of_lt_of_le {a b c : Date} (h1 : a < b) (h2 : b ≤ c) : a < c := by
  rcases a with ⟨y1, m1, d1⟩; rcases b with ⟨y2, m2, d2⟩; rcases c with ⟨y3, m3, d3⟩
  simp only [Date.le_def, Date.lt_def] at *; omega

theorem Date.lt_of_le_of_lt {a b c : Date} (h1 : a ≤ b) (h2 : b < c) : a < c := by
  rcases a with ⟨y1, m1, d1⟩; rcases b with ⟨y2, m2, d2⟩; rcases c with ⟨y3, m3, d3⟩
  simp only [Date.le_def, Date.lt_def] at *; omega

theorem Date.lt_irrefl (a : Date) : ¬ a < a := by
  rcases a with ⟨y1, m1, d1⟩
  simp [Date.lt_def]

theorem Date.le_antisymm {a b : Date} (h1 : a ≤ b) (h2 : b ≤ a) : a = b := by
  rcases a with ⟨y1, m1, d1⟩; rcases b with ⟨y2, m2, d2⟩
  simp only [Date.le_def] at *
  simp only [Date.mk.injEq]; omega

theorem Date.lt_iff_le_and_ne {a b : Date} : a < b ↔ a ≤ b ∧ a ≠ b := by
  rcases a with ⟨y1, m1, d1⟩; rcases b with ⟨y2, m2, d2⟩
  simp only [Date.le_def, Date.lt_def, ne_eq, Date.mk.injEq, not_and]
  omega

theorem Date.valid_mk {y m d : Nat} :
    (Date.mk y m d).Valid ↔ (1 ≤ y ∧ 1 ≤ m ∧ m ≤ 12 ∧ 1 ≤ d ∧ d ≤ daysInMonth y m) :=
  Iff.rfl

theorem Date.le_mk {y1 m1 d1 y2 m2 d2 : Nat} :
    (Date.mk y1 m1 d1 ≤ Date.mk y2 m2 d2) ↔
      (y1 < y2 ∨ (y1 = y2 ∧ (m1 < m2 ∨ (m1 = m2 ∧ d1 ≤ d2)))) := Iff.rfl

theorem Date.lt_mk {y1 m1 d1 y2 m2 d2 : Nat} :
    (Date.mk y1 m1 d1 < Date.mk y2 m2 d2) ↔
      (y1 < y2 ∨ (y1 = y2 ∧ (m1 < m2 ∨ (m1 = m2 ∧ d1 < d2)))) := Iff.rfl

theorem daysInMonth_pos (y m : Nat) : 1 ≤ daysInMonth y m := by
  unfold daysInMonth
  split
  · split <;> omega
  · split <;> omega

theorem daysInMonth_le (y m : Nat) : daysInMonth y m ≤ 31 := by
  unfold daysInMonth
  split
  · split <;> omega
  · split <;> omega

theorem nextDay_mk {y m d : Nat} :
    nextDay ⟨y, m, d⟩ =
      if d < daysInMonth y m then (⟨y, m, d + 1⟩ : Date)
      else if m < 12 then (⟨y, m + 1, 1⟩ : Date) else (⟨y + 1, 1, 1⟩ : Date) := rfl

theorem dkey_mk {y m d : Nat} : dkey ⟨y, m, d⟩ = 500 * y + 31 * min m 12 + min d 31 := rfl

theorem addMonths_mk {y m d n : Nat} :
    addMonths ⟨y, m, d⟩ n =
      ⟨y + (m - 1 + n) / 12, (m - 1 + n) % 12 + 1,
        min d (daysInMonth (y + (m - 1 + n) / 12) ((m - 1 + n) % 12 + 1))⟩ := rfl

theorem dkey_lt_nextDay (d : Date) : dkey d < dkey (nextDay d) := by
  rcases d with ⟨y, m, dd⟩
  have h31 := daysInMonth_le y m
  rw [nextDay_mk]
  split
  · simp only [dkey_mk]; omega
  · split <;> (simp only [dkey_mk]; omega)

theorem Date.Valid.nextDay {d : Date} (h : d.Valid) : (FinCal.nextDay d).Valid := by
  rcases d with ⟨y, m, dd⟩
  rw [Date.valid_mk] at h
  rw [nextDay_mk]
  split
  · rw [Date.valid_mk]; omega
  · split
    · rw [Date.valid_mk]
      have := daysInMonth_pos y (m + 1)
      omega
    · rw [Date.valid_mk]
      have := daysInMonth_pos (y + 1) 1
      omega

theorem lt_nextDay (d : Date) : d < nextDay d := by
  rcases d with ⟨y, m, dd⟩
  rw [nextDay_mk]
  split
  · rw [Date.lt_mk]; omega
  · split <;> (rw [Date.lt_mk]; omega)

/-- The successor property: for valid dates there is no date strictly between
`d` and `nextDay d`. -/
theorem nextDay_le_of_lt {d e : Date} (hd : d.Valid) (he : e.Valid) (h : d < e) :
    nextDay d ≤ e := by
  rcases d with ⟨y, m, dd⟩; rcases e with ⟨y', m', dd'⟩
  rw [Date.valid_mk] at hd he
  rw [Date.lt_mk] at h
  have hdim : y = y' → m = m' → daysInMonth y m = daysInMonth y' m' := by
    intro h1 h2; rw [h1, h2]
  rw [nextDay_mk]
  split
  · rw [Date.le_mk]; omega
  · split
    · rw [Date.le_mk]
      rcases h with h | ⟨rfl, h⟩
      · omega
      · rcases h with h | ⟨rfl, h⟩
        · omega
        · have := hdim rfl rfl; omega
    · rw [Date.le_mk]
      rcases h with h | ⟨rfl, h⟩
      · omega
      · rcases h with h | ⟨rfl, h⟩
        · omega
        · have := hdim rfl rfl; omega

theorem dkey_le_of_le {a b : Date} (ha : a.Valid) (hb : b.Valid) (h : a ≤ b) :
    dkey a ≤ dkey b := by
  rcases a with ⟨y1, m1, d1⟩; rcases b with ⟨y2, m2, d2⟩
  rw [Date.valid_mk] at ha hb
  rw [Date.le_mk] at h
  have h31a := daysInMonth_le y1 m1
  have h31b := daysInMonth_le y2 m2
  simp only [dkey_mk]
  omega

theorem dkey_lt_of_lt {a b : Date} (ha : a.Valid) (hb : b.Valid) (h : a < b) :
    dkey a < dkey b := by
  rcases a with ⟨y1, m1, d1⟩; rcases b with ⟨y2, m2, d2⟩
  rw [Date.valid_mk] at ha hb
  rw [Date.lt_mk] at h
  have h31a := daysInMonth_le y1 m1
  have h31b := daysInMonth_le y2 m2
  simp only [dkey_mk]
  omega

theorem Date.Valid.addDays {d : Date} (h : d.Valid) (n : Nat) : (addDays d n).Valid := by
  induction n generalizing d with
  | zero => exact h
  | succ n ih => exact ih h.nextDay

theorem le_addDays {d : Date} (h : d.Valid) (n : Nat) : d ≤ addDays d n := by
  induction n generalizing d with
  | zero => exact Date.le_refl d
  | succ n ih =>
    exact Date.le_trans (Date.le_of_lt (lt_nextDay d)) (ih h.nextDay)

theorem lt_addDays {d : Date} (h : d.Valid) {n : Nat} (hn : 1 ≤ n) : d < addDays d n := by
  cases n with
  | zero => omega
  | succ n =>
    exact Date.lt_of_lt_of_le (lt_nextDay d) (le_addDays h.nextDay n)

theorem Date.Valid.addMonths {d : Date} (h : d.Valid) (n : Nat) : (FinCal.addMonths d n).Valid := by
  rcases d with ⟨y, m, dd⟩
  rw [Date.valid_mk] at h
  rw [addMonths_mk, Date.valid_mk]
  have hpos := daysInMonth_pos (y + (m - 1 + n) / 12) ((m - 1 + n) % 12 + 1)
  omega

theorem lt_addMonths {d : Date} (h : d.Valid) {n : Nat} (hn : 1 ≤ n) :
    d < addMonths d n := by
  rcases d with ⟨y, m, dd⟩
  rw [Date.valid_mk] at h
  rw [addMonths_mk, Date.lt_mk]
  omega

theorem dateRangeF_congr {b : Date} (hb : b.Valid) :
    ∀ (n m : Nat) (a : Date), a.Valid → dkey b + 1 - dkey a ≤ n →
      dkey b + 1 - dkey a ≤ m → dateRangeF n a b = dateRangeF m a b := by
  intro n
  induction n with
  | zero =>
    intro m a ha hn _
    have hab : ¬ a ≤ b := by
      intro hle
      have := dkey_le_of_le ha hb hle
      omega
    cases m with
    | zero => rfl
    | succ m => simp [dateRangeF, hab]
  | succ n ih =>
    intro m a ha hn hm
    cases m with
    | zero =>
      have hab : ¬ a ≤ b := by
        intro hle
        have := dkey_le_of_le ha hb hle
        omega
      simp [dateRangeF, hab]
    | succ m =>
      simp only [dateRangeF]
      split
      · have hstep := dkey_lt_nextDay a
        rw [ih m (nextDay a) ha.nextDay (by omega) (by omega)]
      · rfl

theorem dateRange_eq {a b : Date} (ha : a.Valid) (hb : b.Valid) :
    dateRange a b = if a ≤ b then a :: dateRange (nextDay a) b else [] := by
  unfold dateRange
  have h1 : dkey b + 1 - dkey a ≤ dkey b + 1 - dkey a := Nat.le_refl _
  by_cases hab : a ≤ b
  · have hge : 1 ≤ dkey b + 1 - dkey a := by
      have := dkey_le_of_le ha hb hab
      omega
    obtain ⟨k, hk⟩ : ∃ k, dkey b + 1 - dkey a = k + 1 := ⟨dkey b + 1 - dkey a - 1, by omega⟩
    rw [hk]
    simp only [dateRangeF, hab, if_pos]
    have hstep := dkey_lt_nextDay a
    rw [dateRangeF_congr hb k (dkey b + 1 - dkey (nextDay a)) (nextDay a) ha.nextDay
      (by omega) (Nat.le_refl _)]
  · cases hc : dkey b + 1 - dkey a with
    | zero => simp [dateRangeF, hab]
    | succ k => simp [dateRangeF, hab]

theorem mem_dateRangeF {b : Date} (hb : b.Valid) :
    ∀ (n : Nat) (a : Date), a.Valid → dkey b + 1 - dkey a ≤ n →
      ∀ e : Date, e ∈ dateRangeF n a b ↔ (a ≤ e ∧ e ≤ b ∧ e.Valid) := by
  intro n
  induction n with
  | zero =>
    intro a ha hn e
    have hab : ¬ a ≤ b := by
      intro hle
      have := dkey_le_of_le ha hb hle
      omega
    simp only [dateRangeF, List.not_mem_nil, false_iff]
    rintro ⟨h1, h2, _⟩
    exact hab (Date.le_trans h1 h2)
  | succ n ih =>
    intro a ha hn e
    simp only [dateRangeF]
    split
    · rename_i hab
      have hstep := dkey_lt_nextDay a
      rw [List.mem_cons, ih (nextDay a) ha.nextDay (by omega) e]
      constructor
      · rintro (rfl | ⟨h1, h2, h3⟩)
        · exact ⟨Date.le_refl _, hab, ha⟩
        · exact ⟨Date.le_trans (Date.le_of_lt (lt_nextDay a)) h1, h2, h3⟩
      · rintro ⟨h1, h2, h3⟩
        by_cases he : e = a
        · exact Or.inl he
        · refine Or.inr ⟨?_, h2, h3⟩
          refine nextDay_le_of_lt ha h3 ?_
          rw [Date.lt_iff_le_and_ne]
          exact ⟨h1, fun h => he h.symm⟩
    · rename_i hab
      simp only [List.not_mem_nil, false_iff]
      rintro ⟨h1, h2, _⟩
      exact hab (Date.le_trans h1 h2)

theorem mem_dateRange {a b : Date} (ha : a.Valid) (hb : b.Valid) (e : Date) :
    e ∈ dateRange a b ↔ (a ≤ e ∧ e ≤ b ∧ e.Valid) :=
  mem_dateRangeF hb _ a ha (Nat.le_refl _) e

theorem pairwise_dateRangeF {b : Date} (hb : b.Valid) :
    ∀ (n : Nat) (a : Date), a.Valid → dkey b + 1 - dkey a ≤ n →
      (dateRangeF n a b).Pairwise (fun x y => x < y) := by
  intro n
  induction n with
  | zero => intro a _ _; exact List.Pairwise.nil
  | succ n ih =>
    intro a ha hn
    simp only [dateRangeF]
    split
    · have hstep := dkey_lt_nextDay a
      refine List.Pairwise.cons ?_ (ih (nextDay a) ha.nextDay (by omega))
      intro e he
      rw [mem_dateRangeF hb n (nextDay a) ha.nextDay (by omega) e] at he
      exact Date.lt_of_lt_of_le (lt_nextDay a) he.1
    · exact List.Pairwise.nil

theorem pairwise_dateRange {a b : Date} (ha : a.Valid) (hb : b.Valid) :
    (dateRange a b).Pairwise (fun x y => x < y) :=
  pairwise_dateRangeF hb _ a ha (Nat.le_refl _)

theorem nodup_dateRange {a b : Date} (ha : a.Valid) (hb : b.Valid) :
    (dateRange a b).Nodup := by
  refine List.Pairwise.imp ?_ (pairwise_dateRange ha hb)
  intro x y hxy
  rw [Date.lt_iff_le_and_ne] at hxy
  exact hxy.2

theorem dateRange_nil {a b : Date} (ha : a.Valid) (hb : b.Valid) (h : ¬ a ≤ b) :
    dateRange a b = [] := by
  rw [dateRange_eq ha hb, if_neg h]

theorem Date.le_max_left (a b : Date) : a ≤ Date.max a b := by
  unfold Date.max
  split
  · assumption
  · exact Date.le_refl a

theorem Date.le_max_right (a b : Date) : b ≤ Date.max a b := by
  unfold Date.max
  split
  · exact Date.le_refl b
  · rename_i h
    rw [Date.not_le] at h
    exact Date.le_of_lt h

theorem Date.max_eq_or (a b : Date) : Date.max a b = a ∨ Date.max a b = b := by
  unfold Date.max
  split
  · exact Or.inr rfl
  · exact Or.inl rfl

theorem Date.max_le {a b c : Date} (h1 : a ≤ c) (h2 : b ≤ c) : Date.max a b ≤ c := by
  unfold Date.max
  split
  · exact h2
  · exact h1

theorem Date.min_le_left (a b : Date) : Date.min a b ≤ a := by
  unfold Date.min
  split
  · exact Date.le_refl a
  · rename_i h
    rw [Date.not_le] at h
    exact Date.le_of_lt h

theorem Date.min_le_right (a b : Date) : Date.min a b ≤ b := by
  unfold Date.min
  split
  · assumption
  · exact Date.le_refl b

theorem Date.min_eq_or (a b : Date) : Date.min a b = a ∨ Date.min a b = b := by
  unfold Date.min
  split
  · exact Or.inl rfl
  · exact Or.inr rfl

theorem Date.le_min {a b c : Date} (h1 : c ≤ a) (h2 : c ≤ b) : c ≤ Date.min a b := by
  unfold Date.min
  split
  · exact h1
  · exact h2

theorem maxDate?_eq_none {l : List Date} : maxDate? l = none ↔ l = [] := by
  cases l with
  | nil => simp [maxDate?]
  | cons d ds =>
    simp only [maxDate?]
    cases maxDate? ds <;> simp

theorem maxDate?_mem {l : List Date} {m : Date} (h : maxDate? l = some m) : m ∈ l := by
  induction l generalizing m with
  | nil => simp [maxDate?] at h
  | cons d ds ih =>
    simp only [maxDate?] at h
    cases hds : maxDate? ds with
    | none =>
      rw [hds] at h
      simp only [Option.some.injEq] at h
      simp [h.symm]
    | some m2 =>
      rw [hds] at h
      simp only [Option.some.injEq] at h
      rcases Date.max_eq_or d m2 with he | he

      · rw [he] at h
        simp [h.symm]
      · rw [he] at h
        subst h
        exact List.mem_cons_of_mem d (ih hds)

theorem maxDate?_ub {l : List Date} {m : Date} (h : maxDate? l = some m) :
    ∀ x ∈ l, x ≤ m := by
  induction l generalizing m with
  | nil => simp
  | cons d ds ih =>
    simp only [maxDate?] at h
    intro x hx
    cases hds : maxDate? ds with
    | none =>
      rw [hds] at h
      simp only [Option.some.injEq] at h
      rw [maxDate?_eq_none] at hds
      subst hds
      simp only [List.mem_singleton] at hx
      subst hx
      exact h ▸ Date.le_refl x
    | some m2 =>
      rw [hds] at h
      simp only [Option.some.injEq] at h
      subst h
      rcases List.mem_cons.mp hx with rfl | hx2
      · exact Date.le_max_left _ _
      · exact Date.le_trans (ih hds x hx2) (Date.le_max_right _ _)

theorem maxDate?_isSome {l : List Date} (h : l ≠ []) : ∃ m, maxDate? l = some m := by
  cases hl : maxDate? l with
  | none => exact absurd (maxDate?_eq_none.mp hl) h
  | some m => exact ⟨m, rfl⟩

theorem maxDate?_append_gt {l : List Date} {c : Date} (h : ∀ x ∈ l, x < c) :
    maxDate? (l ++ [c]) = some c := by
  induction l with
  | nil => simp [maxDate?]
  | cons d ds ih =>
    have hd : d < c := h d (List.mem_cons_self d ds)
    have ih2 := ih (fun x hx => h x (List.mem_cons_of_mem d hx))
    have hstep : maxDate? ((d :: ds) ++ [c]) =
        match maxDate? (ds ++ [c]) with
        | none => some d
        | some m => some (Date.max d m) := rfl
    rw [hstep, ih2]
    have hmax : Date.max d c = c := by
      unfold Date.max
      rw [if_pos (Date.le_of_lt hd)]
    show some (Date.max d c) = some c
    rw [hmax]

theorem minDate?_eq_none_aux {l : List Date} : minDate? l = none ↔ l = [] := by
  cases l with
  | nil => simp [minDate?]
  | cons d ds =>
    simp only [minDate?]
    cases minDate? ds <;> simp

theorem minDate?_mem {l : List Date} {m : Date} (h : minDate? l = some m) : m ∈ l := by
  induction l generalizing m with
  | nil => simp [minDate?] at h
  | cons d ds ih =>
    simp only [minDate?] at h
    cases hds : minDate? ds with
    | none =>
      rw [hds] at h
      simp only [Option.some.injEq] at h
      simp [h.symm]
    | some m2 =>
      rw [hds] at h
      simp only [Option.some.injEq] at h
      rcases Date.min_eq_or d m2 with he | he
      · rw [he] at h
        simp [h.symm]
      · rw [he] at h
        subst h
        exact List.mem_cons_of_mem d (ih hds)

theorem minDate?_lb {l : List Date} {m : Date} (h : minDate? l = some m) :
    ∀ x ∈ l, m ≤ x := by
  induction l generalizing m with
  | nil => simp
  | cons d ds ih =>
    simp only [minDate?] at h
    intro x hx
    cases hds : minDate? ds with
    | none =>
      rw [hds] at h
      simp only [Option.some.injEq] at h
      rw [minDate?_eq_none_aux] at hds
      subst hds
      simp only [List.mem_singleton] at hx
      subst hx
      exact h ▸ Date.le_refl x
    | some m2 =>
      rw [hds] at h
      simp only [Option.some.injEq] at h
      subst h
      rcases List.mem_cons.mp hx with rfl | hx2
      · exact Date.min_le_left _ _
      · exact Date.le_trans (Date.min_le_right _ _) (ih hds x hx2)

theorem minDate?_isSome {l : List Date} (h : l ≠ []) : ∃ m, minDate? l = some m := by
  cases hl : minDate? l with
  | none => exact absurd (minDate?_eq_none_aux.mp hl) h
  | some m => exact ⟨m, rfl⟩

theorem stepDate_id_of_not_supported {frequency : String} (d : Date)
    (h : ¬ supportedFreq frequency) : stepDate frequency d = d := by
  unfold supportedFreq at h
  push_neg at h
  obtain ⟨h1, h2, h3, h4, h5⟩ := h
  unfold stepDate
  rw [if_neg h1, if_neg h2, if_neg h3, if_neg h4, if_neg h5]

theorem Date.Valid.stepDate {d : Date} (h : d.Valid) (frequency : String) :
    (FinCal.stepDate frequency d).Valid := by
  unfold FinCal.stepDate
  split
  · exact h.addDays 1
  · split
    · exact h.addDays 7
    · split
      · exact h.addDays 14
      · split
        · exact h.addMonths 1
        · split
          · exact h.addMonths 2
          · exact h

theorem lt_stepDate {d : Date} (h : d.Valid) {frequency : String}
    (hf : supportedFreq frequency) : d < stepDate frequency d := by
  unfold stepDate
  split
  · exact lt_addDays h (by omega)
  · split
    · exact lt_addDays h (by omega)
    · split
      · exact lt_addDays h (by omega)
      · split
        · exact lt_addMonths h (by omega)
        · split
          · exact lt_addMonths h (by omega)
          · rename_i h1 h2 h3 h4 h5
            exact absurd hf (by unfold supportedFreq; push_neg; exact ⟨h1, h2, h3, h4, h5⟩)

theorem le_stepDate {d : Date} (h : d.Valid) (frequency : String) :
    d ≤ stepDate frequency d := by
  by_cases hf : supportedFreq frequency
  · exact Date.le_of_lt (lt_stepDate h hf)
  · rw [stepDate_id_of_not_supported d hf]
    exact Date.le_refl d

theorem genLoop_zero (u : String) (sch : Schedule) (E : Date) (s : Store) (cur : Date) :
    genLoop u sch E 0 s cur = if cur ≤ E then none else some s := rfl

theorem genLoop_succ (u : String) (sch : Schedule) (E : Date) (fuel : Nat)
    (s : Store) (cur : Date) :
    genLoop u sch E (fuel + 1) s cur =
      if cur ≤ E then
        genLoop u sch E fuel
          (if sch.startDate ≤ cur then
            (add_transaction s u cur sch.categoryId sch.description sch.amount 0
              (some sch.scheduleId)).1
           else s)
          (stepDate sch.frequency cur)
      else some s := rfl

theorem genLoop_exit {u : String} {sch : Schedule} {E : Date} {fuel : Nat}
    {s : Store} {cur : Date} (h : ¬ cur ≤ E) : genLoop u sch E fuel s cur = some s := by
  cases fuel with
  | zero => rw [genLoop_zero, if_neg h]
  | succ n => rw [genLoop_succ, if_neg h]

theorem genLoop_stuck {u : String} {sch : Schedule} {E cur : Date}
    (hstep : stepDate sch.frequency cur = cur) (hle : cur ≤ E) :
    ∀ (fuel : Nat) (s : Store), genLoop u sch E fuel s cur = none := by
  intro fuel
  induction fuel with
  | zero =>
    intro s
    rw [genLoop_zero, if_pos hle]
  | succ n ih =>
    intro s
    rw [genLoop_succ, if_pos hle, hstep]
    exact ih _

theorem genLoop_total {u : String} {sch : Schedule} {E : Date}
    (hf : supportedFreq sch.frequency) (hE : E.Valid) :
    ∀ (fuel : Nat) (cur : Date) (s : Store), cur.Valid →
      dkey E + 1 - dkey cur ≤ fuel → ∃ s2, genLoop u sch E fuel s cur = some s2 := by
  intro fuel
  induction fuel with
  | zero =>
    intro cur s hv hb
    have hgt : ¬ cur ≤ E := by
      intro hle
      have := dkey_le_of_le hv hE hle
      omega
    rw [genLoop_zero, if_neg hgt]
    exact ⟨s, rfl⟩
  | succ n ih =>
    intro cur s hv hb
    rw [genLoop_succ]
    by_cases hle : cur ≤ E
    · rw [if_pos hle]
      have hsv := hv.stepDate sch.frequency
      have hkey : dkey cur < dkey (stepDate sch.frequency cur) :=
        dkey_lt_of_lt hv hsv (lt_stepDate hv hf)
      exact ih (stepDate sch.frequency cur) _ hsv (by omega)
    · rw [if_neg hle]
      exact ⟨s, rfl⟩

theorem expResume_valid {s : Store} {u : String} {sch : Schedule}
    (hstart : sch.startDate.Valid)
    (htx : ∀ t ∈ s.transactions, t.userId = u → t.scheduleId = some sch.scheduleId →
      t.date.Valid) :
    (expResume s u sch).Valid := by
  unfold expResume
  cases hg : get_last_generated_date s u sch.scheduleId with
  | none => exact hstart
  | some d =>
    unfold get_last_generated_date at hg
    have hmem := maxDate?_mem hg
    rw [List.mem_map] at hmem
    obtain ⟨t, ht, rfl⟩ := hmem
    rw [List.mem_filter, decide_eq_true_eq] at ht
    exact htx t ht.1 ht.2.1 ht.2.2

theorem expLoopEnd_valid {sch : Schedule} {horizon : Date} (hhor : horizon.Valid)
    (hend : ∀ e, sch.endDate = some e → e.Valid) :
    (expLoopEnd sch horizon).Valid := by
  unfold expLoopEnd
  split
  · rename_i e he
    split
    · exact hend e he
    · exact hhor
  · exact hhor

/-- C9: for every user with no stored settings and every view window,
`get_calendar_data` returns an empty sequence (and, being defined by the
settings check up front, raises no error). -/
theorem c9_missing_settings (s : Store) (u : String) (vs ve : Date)
    (h : get_user_settings s u = none) : get_calendar_data s u vs ve = [] := by
  unfold get_calendar_data
  rw [h]

theorem c9_witness :
    get_user_settings c9Store "u" = none ∧
      get_calendar_data c9Store "u" ⟨2024, 1, 1⟩ ⟨2024, 1, 31⟩ = [] :=
  ⟨rfl, c9_missing_settings c9Store "u" ⟨2024, 1, 1⟩ ⟨2024, 1, 31⟩ rfl⟩

/-- C4 counterexample: for the rule with frequency "yearly" (not one of the
five recognised values) and start date on or before the horizon, the
generation loop never terminates: no amount of fuel makes `expandSchedule`
return, because the cursor is never advanced past the ceiling. -/
theorem c4_counterexample :
    ¬ ∃ (fuel : Nat) (s2 : Store),
      expandSchedule fuel c4Store "u" c4Schedule ⟨2024, 12, 31⟩ = some s2 := by
  rintro ⟨fuel, s2, h⟩
  have h2 : expandSchedule fuel c4Store "u" c4Schedule ⟨2024, 12, 31⟩ =
      genLoop "u" c4Schedule ⟨2024, 12, 31⟩ fuel c4Store ⟨2024, 1, 1⟩ := rfl
  have h3 := @genLoop_stuck "u" c4Schedule ⟨2024, 12, 31⟩ ⟨2024, 1, 1⟩ rfl
    (by decide) fuel c4Store
  rw [h2, h3] at h
  exact Option.noConfusion h

/-- C4 amended: for every schedule rule whose frequency is one of the five
supported values (daily, weekly, bi-weekly, monthly, bi-monthly), start date,
horizon, optional end date and stored occurrence dates all being real
calendar dates, the generation loop of `run_projection` terminates: some
fuel makes `expandSchedule` return. -/
theorem c4_amended_terminates (s : Store) (u : String) (sch : Schedule) (horizon : Date)
    (hf : supportedFreq sch.frequency)
    (hstart : sch.startDate.Valid)
    (hhor : horizon.Valid)
    (hend : ∀ e, sch.endDate = some e → e.Valid)
    (htx : ∀ t ∈ s.transactions, t.userId = u → t.scheduleId = some sch.scheduleId →
      t.date.Valid) :
    ∃ (fuel : Nat) (s2 : Store), expandSchedule fuel s u sch horizon = some s2 := by
  have hE := expLoopEnd_valid hhor hend
  have hres := expResume_valid hstart htx
  have hcur := hres.stepDate sch.frequency
  obtain ⟨s2, h⟩ := genLoop_total hf hE (dkey (expLoopEnd sch horizon) + 1)
    (stepDate sch.frequency (expResume s u sch)) s hcur (by omega)
  exact ⟨dkey (expLoopEnd sch horizon) + 1, s2, h⟩

theorem c4_amended_witness :
    ∃ (fuel : Nat) (s2 : Store),
      expandSchedule fuel c3Store "u" c3Schedule ⟨2024, 3, 15⟩ = some s2 :=
  c4_amended_terminates c3Store "u" c3Schedule ⟨2024, 3, 15⟩
    (by decide) (by decide) (by decide) (by intro e he; cases he) (by intro t ht; cases ht)

/-- C5: the code does not reject a rule with an unrecognised frequency, and
the other rules of the user do not proceed: with the "annually" rule first in
the list and its next date within the horizon, the whole projection run never
returns (each iteration of the stuck loop writes another occurrence), so the
later well-formed daily rule is never expanded. -/
theorem c5_unknown_frequency_not_rejected :
    ¬ ∃ (fuel : Nat) (s2 : Store),
      run_projection fuel c5Store "u" ⟨2024, 3, 1⟩ = some s2 := by
  rintro ⟨fuel, s2, h⟩
  have hlist : (get_scheduled_transactions c5Store "u").map Prod.fst =
      [c5BadSchedule, c5GoodSchedule] := rfl
  unfold run_projection at h
  rw [hlist] at h
  rw [List.foldlM_cons] at h
  have hbad : expandSchedule fuel c5Store "u" c5BadSchedule ⟨2024, 3, 1⟩ = none := by
    have h2 : expandSchedule fuel c5Store "u" c5BadSchedule ⟨2024, 3, 1⟩ =
        genLoop "u" c5BadSchedule ⟨2024, 3, 1⟩ fuel c5Store ⟨2024, 2, 1⟩ := rfl
    rw [h2]
    exact @genLoop_stuck "u" c5BadSchedule ⟨2024, 3, 1⟩ ⟨2024, 2, 1⟩ rfl
      (by decide) fuel c5Store
  rw [hbad] at h
  exact Option.noConfusion h

set_option maxRecDepth 100000 in
/-- C2 counterexample: in the end-to-end scenario (anchor 2024-01-01,
starting balance 1000.00, one monthly rule of −100.00 from 2024-01-01,
horizon 2024-04-01) the code produces three occurrences, not four: no
occurrence is dated 2024-01-01, and the balance on 2024-01-15 is 1000.00,
not the claimed 900.00. -/
theorem c2_counterexample :
    run_projection 10 c2Store "u" ⟨2024, 4, 1⟩ = some c2StoreAfter ∧
      c2StoreAfter.transactions.length = 3 ∧
      c2StoreAfter.transactions.filter (fun t => decide (t.date = ⟨2024, 1, 1⟩)) = [] ∧
      (get_calendar_data c2StoreAfter "u" ⟨2024, 1, 15⟩ ⟨2024, 1, 15⟩).map
        (fun r => r.balance) = [1000] :=
  ⟨by decide, by decide, by decide, by with_unfolding_all rfl⟩

set_option maxRecDepth 100000 in
/-- C2 amended: the end-to-end scenario produces exactly three occurrences of
−100.00, dated 2024-02-01, 2024-03-01 and 2024-04-01 (the rule's start date
itself is never emitted, because expansion advances one period from the
resume point before generating), and the balance series is 1000.00 from
2024-01-01 through 2024-01-31, 900.00 through 2024-02-29, 800.00 through
2024-03-31, and 700.00 from 2024-04-01 onward. -/
theorem c2_amended :
    run_projection 10 c2Store "u" ⟨2024, 4, 1⟩ = some c2StoreAfter ∧
      c2StoreAfter.transactions.map
        (fun t => (t.date, t.amount, t.isConfirmed, t.scheduleId)) =
        [(⟨2024, 2, 1⟩, -100, 0, some 1), (⟨2024, 3, 1⟩, -100, 0, some 1),
         (⟨2024, 4, 1⟩, -100, 0, some 1)] ∧
      (get_calendar_data c2StoreAfter "u" ⟨2024, 1, 1⟩ ⟨2024, 6, 30⟩).all
        (fun r => r.balance == c2ExpectedBalance r.date) = true ∧
      (get_calendar_data c2StoreAfter "u" ⟨2024, 1, 1⟩ ⟨2024, 6, 30⟩).map
        (fun r => r.date) = dateRange ⟨2024, 1, 1⟩ ⟨2024, 6, 30⟩ := by
  refine ⟨by decide, by decide, ?_, ?_⟩
  · with_unfolding_all rfl
  · with_unfolding_all rfl

/-- C6 counterexample: the monthly rule starting 2024-01-31 expanded to
horizon 2024-04-30 generates no occurrence on 2024-01-31 and none on
2024-04-30; the generated dates are 2024-02-29, 2024-03-29 and 2024-04-29. -/
theorem c6_counterexample :
    expandSchedule 10 c6Store "u" c6Schedule ⟨2024, 4, 30⟩ = some c6StoreAfter ∧
      c6StoreAfter.transactions.filter (fun t =>
        decide (t.date = ⟨2024, 1, 31⟩ ∨ t.date = ⟨2024, 4, 30⟩)) = [] := by
  constructor
  · decide
  · decide

/-- C6 amended: the monthly rule starting 2024-01-31 expanded from an empty
store to horizon 2024-04-30 generates occurrences exactly on 2024-02-29,
2024-03-29 and 2024-04-29: the first generated date is one calendar month
after the start date (the start date itself is not emitted), and each
subsequent date adds one calendar month to the previous occurrence date,
clamped to the last valid day of the target month, so the clamped day of
month drifts and is never restored. -/
theorem c6_amended :
    expandSchedule 10 c6Store "u" c6Schedule ⟨2024, 4, 30⟩ = some c6StoreAfter ∧
      c6StoreAfter.transactions.map Tx.date =
        [⟨2024, 2, 29⟩, ⟨2024, 3, 29⟩, ⟨2024, 4, 29⟩] ∧
      addMonths ⟨2024, 1, 31⟩ 1 = ⟨2024, 2, 29⟩ ∧
      addMonths ⟨2024, 2, 29⟩ 1 = ⟨2024, 3, 29⟩ ∧
      addMonths ⟨2024, 3, 29⟩ 1 = ⟨2024, 4, 29⟩ ∧
      addMonths ⟨2024, 4, 29⟩ 1 = ⟨2024, 5, 29⟩ := by
  refine ⟨by decide, by decide, by decide, by decide, by decide, by decide⟩

theorem Date.lt_trans {a b c : Date} (h1 : a < b) (h2 : b < c) : a < c := by
  rcases a with ⟨y1, m1, d1⟩; rcases b with ⟨y2, m2, d2⟩; rcases c with ⟨y3, m3, d3⟩
  simp only [Date.lt_def] at *; omega

theorem add_transaction_fst_transactions (s : Store) (u : String) (sch : Schedule)
    (cur : Date) :
    ((add_transaction s u cur sch.categoryId sch.description sch.amount 0
      (some sch.scheduleId)).1).transactions = s.transactions ++ [genTx s u sch cur] := rfl

theorem genLoop_append {u : String} {sch : Schedule} {E : Date} :
    ∀ (fuel : Nat) (cur : Date) (s s2 : Store),
      genLoop u sch E fuel s cur = some s2 →
      ∃ ts, s2.transactions = s.transactions ++ ts := by
  intro fuel
  induction fuel with
  | zero =>
    intro cur s s2 h
    rw [genLoop_zero] at h
    split at h
    · exact Option.noConfusion h
    · simp only [Option.some.injEq] at h
      exact ⟨[], by rw [h.symm, List.append_nil]⟩
  | succ n ih =>
    intro cur s s2 h
    rw [genLoop_succ] at h
    split at h
    · by_cases hst : sch.startDate ≤ cur
      · rw [if_pos hst] at h
        obtain ⟨ts, hts⟩ := ih _ _ _ h
        refine ⟨genTx s u sch cur :: ts, ?_⟩
        rw [hts, add_transaction_fst_transactions, List.append_assoc]
        rfl
      · rw [if_neg hst] at h
        exact ih _ _ _ h
    · simp only [Option.some.injEq] at h
      exact ⟨[], by rw [h.symm, List.append_nil]⟩

theorem glg_insert {s : Store} {u : String} {sch : Schedule} {cur : Date}
    (h : ∀ t ∈ s.transactions, t.userId = u → t.scheduleId = some sch.scheduleId →
      t.date < cur) :
    get_last_generated_date
      ((add_transaction s u cur sch.categoryId sch.description sch.amount 0
        (some sch.scheduleId)).1) u sch.scheduleId = some cur := by
  unfold get_last_generated_date
  rw [add_transaction_fst_transactions, List.filter_append, List.map_append]
  have hsingle : (List.filter
      (fun t => decide (t.userId = u ∧ t.scheduleId = some sch.scheduleId))
      [genTx s u sch cur]).map Tx.date = [cur] := by
    simp [genTx]
  rw [hsingle]
  apply maxDate?_append_gt
  intro x hx
  rw [List.mem_map] at hx
  obtain ⟨t, ht, rfl⟩ := hx
  rw [List.mem_filter, decide_eq_true_eq] at ht
  exact h t ht.1 ht.2.1 ht.2.2

theorem genLoop_idem_aux {u : String} {sch : Schedule} {E : Date}
    (hf : supportedFreq sch.frequency) :
    ∀ (fuel : Nat) (cur : Date) (s s2 : Store), cur.Valid →
      (∀ t ∈ s.transactions, t.userId = u → t.scheduleId = some sch.scheduleId →
        t.date < cur) →
      genLoop u sch E fuel s cur = some s2 →
      s2 = s ∨ ∃ L, L.Valid ∧ sch.startDate ≤ L ∧ ¬ stepDate sch.frequency L ≤ E ∧
        get_last_generated_date s2 u sch.scheduleId = some L := by
  intro fuel
  induction fuel with
  | zero =>
    intro cur s s2 hv hlt h
    rw [genLoop_zero] at h
    split at h
    · exact Option.noConfusion h
    · simp only [Option.some.injEq] at h
      exact Or.inl h.symm
  | succ n ih =>
    intro cur s s2 hv hlt h
    rw [genLoop_succ] at h
    split at h
    · rename_i hle
      by_cases hst : sch.startDate ≤ cur
      · rw [if_pos hst] at h
        have hstep := lt_stepDate hv hf
        have hv2 := hv.stepDate sch.frequency
        have hlt2 : ∀ t ∈ ((add_transaction s u cur sch.categoryId sch.description
            sch.amount 0 (some sch.scheduleId)).1).transactions,
            t.userId = u → t.scheduleId = some sch.scheduleId →
            t.date < stepDate sch.frequency cur := by
          intro t ht h1 h2
          rw [add_transaction_fst_transactions, List.mem_append,
            List.mem_singleton] at ht
          rcases ht with ht | rfl
          · exact Date.lt_trans (hlt t ht h1 h2) hstep
          · exact hstep
        rcases ih (stepDate sch.frequency cur) _ s2 hv2 hlt2 h with h2 | h2
        · by_cases hle2 : stepDate sch.frequency cur ≤ E
          · exfalso
            subst h2
            cases n with
            | zero =>
              rw [genLoop_zero, if_pos hle2] at h
              exact Option.noConfusion h
            | succ g =>
              rw [genLoop_succ, if_pos hle2] at h
              have hst2 : sch.startDate ≤ stepDate sch.frequency cur :=
                Date.le_trans hst (Date.le_of_lt hstep)
              rw [if_pos hst2] at h
              obtain ⟨ts, hts⟩ := genLoop_append g _ _ _ h
              rw [add_transaction_fst_transactions
                ((add_transaction s u cur sch.categoryId sch.description
                  sch.amount 0 (some sch.scheduleId)).1) u sch
                (stepDate sch.frequency cur)] at hts
              have hlen := congrArg List.length hts
              rw [List.length_append, List.length_append,
                List.length_singleton] at hlen
              omega
          · refine Or.inr ⟨cur, hv, hst, hle2, ?_⟩
            rw [h2]
            exact glg_insert hlt
        · exact Or.inr h2
      · rw [if_neg hst] at h
        have hv2 := hv.stepDate sch.frequency
        have hle' := le_stepDate hv sch.frequency
        have hlt2 : ∀ t ∈ s.transactions, t.userId = u →
            t.scheduleId = some sch.scheduleId →
            t.date < stepDate sch.frequency cur := fun t ht h1 h2 =>
          Date.lt_of_lt_of_le (hlt t ht h1 h2) hle'
        exact ih _ s s2 hv2 hlt2 h
    · simp only [Option.some.injEq] at h
      exact Or.inl h.symm

/-- C3: for any rule and horizon (start date and the rule's stored occurrence
dates being real calendar dates), if one call to expansion finishes with
store `s2`, calling expansion again on `s2` finishes and leaves the store
unchanged: the second invocation's resume point, recomputed as the maximum
stored occurrence date for the rule, already covers the horizon, so it
inserts no new occurrence. -/
theorem c3_expand_idempotent (fuel : Nat) (s s2 : Store) (u : String)
    (sch : Schedule) (horizon : Date)
    (hstart : sch.startDate.Valid)
    (htx : ∀ t ∈ s.transactions, t.userId = u → t.scheduleId = some sch.scheduleId →
      t.date.Valid)
    (h1 : expandSchedule fuel s u sch horizon = some s2) :
    expandSchedule fuel s2 u sch horizon = some s2 := by
  by_cases hf : supportedFreq sch.frequency
  · have hres : (expResume s u sch).Valid := expResume_valid hstart htx
    have hlt : ∀ t ∈ s.transactions, t.userId = u →
        t.scheduleId = some sch.scheduleId →
        t.date < stepDate sch.frequency (expResume s u sch) := by
      intro t ht h1' h2'
      have hle : t.date ≤ expResume s u sch := by
        unfold expResume
        cases hg : get_last_generated_date s u sch.scheduleId with
        | none =>
          exfalso
          unfold get_last_generated_date at hg
          rw [maxDate?_eq_none, List.map_eq_nil_iff, List.filter_eq_nil_iff] at hg
          exact absurd (by rw [decide_eq_true_eq]; exact ⟨h1', h2'⟩) (hg t ht)
        | some m =>
          apply maxDate?_ub hg
          unfold get_last_generated_date at hg
          rw [List.mem_map]
          exact ⟨t, List.mem_filter.mpr ⟨ht, by rw [decide_eq_true_eq]; exact ⟨h1', h2'⟩⟩, rfl⟩
      exact Date.lt_of_le_of_lt hle (lt_stepDate hres hf)
    unfold expandSchedule at h1
    rcases genLoop_idem_aux hf fuel _ s s2 (hres.stepDate sch.frequency) hlt h1
      with h2 | ⟨L, hLv, hLs, hLe, hLg⟩
    · subst h2
      exact h1
    · unfold expandSchedule expResume
      rw [hLg]
      exact genLoop_exit hLe
  · have hstep : stepDate sch.frequency (expResume s u sch) = expResume s u sch :=
      stepDate_id_of_not_supported _ hf
    unfold expandSchedule at h1
    rw [hstep] at h1
    by_cases hle : expResume s u sch ≤ expLoopEnd sch horizon
    · exfalso
      rw [genLoop_stuck (stepDate_id_of_not_supported _ hf) hle fuel s] at h1
      exact Option.noConfusion h1
    · rw [genLoop_exit hle] at h1
      simp only [Option.some.injEq] at h1
      subst h1
      unfold expandSchedule
      rw [hstep]
      exact genLoop_exit hle

theorem sum_map_add {α : Type} (l : List α) (f g : α → Rat) :
    (l.map (fun x => f x + g x)).sum = (l.map f).sum + (l.map g).sum := by
  induction l with
  | nil => simp
  | cons a l ih =>
    simp only [List.map_cons, List.sum_cons, ih]
    ring

theorem sum_map_zero {α : Type} (l : List α) : (l.map (fun _ => (0 : Rat))).sum = 0 := by
  induction l with
  | nil => simp
  | cons a l ih => simp [ih]

theorem txCredits_add_txDebits (t : Tx) : txCredits t + txDebits t = t.amount := by
  unfold txCredits txDebits
  by_cases h : 0 < t.amount
  · rw [if_pos h, if_neg (not_le.mpr h), add_zero]
  · rw [if_neg h, if_pos (not_lt.mp h), zero_add]

theorem dayNet_eq (txs : List Tx) (d : Date) :
    dayCredits txs d + dayDebits txs d = ((dayTxs txs d).map Tx.amount).sum := by
  unfold dayCredits dayDebits
  rw [(sum_map_add (dayTxs txs d) txCredits txDebits).symm]
  exact congrArg List.sum (List.map_congr_left (fun t _ => txCredits_add_txDebits t))

theorem sum_indicator (a : Date) (c : Rat) :
    ∀ (l : List Date), l.Nodup →
      (l.map (fun g => if g = a then c else 0)).sum = if a ∈ l then c else 0 := by
  intro l
  induction l with
  | nil => intro _; simp
  | cons d ds ih =>
    intro hnd
    rw [List.nodup_cons] at hnd
    rw [List.map_cons, List.sum_cons, ih hnd.2]
    by_cases hda : d = a
    · subst hda
      rw [if_pos rfl, if_neg hnd.1, if_pos (List.mem_cons_self d ds), add_zero]
    · rw [if_neg hda]
      by_cases hads : a ∈ ds
      · rw [if_pos hads, if_pos (List.mem_cons_of_mem d hads), zero_add]
      · rw [if_neg hads, if_neg ?_, add_zero]
        rw [List.mem_cons]
        push_neg
        exact ⟨fun h => hda h.symm, hads⟩

theorem dayTxs_cons_sum (t : Tx) (ts : List Tx) (g : Date) :
    ((dayTxs (t :: ts) g).map Tx.amount).sum =
      (if g = t.date then t.amount else 0) + ((dayTxs ts g).map Tx.amount).sum := by
  unfold dayTxs
  rw [List.filter_cons]
  by_cases h : t.date = g
  · rw [if_pos (by simp [h]), if_pos h.symm, List.map_cons, List.sum_cons]
  · rw [if_neg (by simp [h]), if_neg (fun hh => h hh.symm), zero_add]

theorem sum_dayTxs_over_grid :
    ∀ (txs : List Tx) (G : List Date), G.Nodup →
      (G.map (fun g => ((dayTxs txs g).map Tx.amount).sum)).sum =
      ((txs.filter (fun t => decide (t.date ∈ G))).map Tx.amount).sum := by
  intro txs
  induction txs with
  | nil =>
    intro G hnd
    have h1 : (G.map (fun g => ((dayTxs ([] : List Tx) g).map Tx.amount).sum)).sum =
        (G.map (fun _ => (0 : Rat))).sum := rfl
    rw [h1, sum_map_zero]
    simp
  | cons t ts ih =>
    intro G hnd
    have h1 : (G.map (fun g => ((dayTxs (t :: ts) g).map Tx.amount).sum)).sum =
        (G.map (fun g => (if g = t.date then t.amount else 0) +
          ((dayTxs ts g).map Tx.amount).sum)).sum :=
      congrArg List.sum (List.map_congr_left (fun g _ => dayTxs_cons_sum t ts g))
    rw [h1, sum_map_add, sum_indicator t.date t.amount G hnd, ih G hnd, List.filter_cons]
    by_cases hm : t.date ∈ G
    · rw [if_pos hm, if_pos (show decide (t.date ∈ G) = true by simpa using hm),
        List.map_cons, List.sum_cons]
    · rw [if_neg hm, if_neg (show ¬ decide (t.date ∈ G) = true by simpa using hm),
        zero_add]

theorem runBalance_cons (txs : List Tx) (m M : Option Date) (b : Rat) (d : Date)
    (ds : List Date) :
    runBalance txs m M b (d :: ds) =
      { date := d, credits := dayCredits txs d, debits := dayDebits txs d,
        net_change := dayCredits txs d + dayDebits txs d,
        is_actual := mergedIsActual txs m M d,
        balance := b + (dayCredits txs d + dayDebits txs d) } ::
        runBalance txs m M (b + (dayCredits txs d + dayDebits txs d)) ds := rfl

theorem runBalance_mem {txs : List Tx} {m M : Option Date} :
    ∀ (grid : List Date) (b : Rat) (r : DailySummary),
      grid.Pairwise (fun x y => x < y) → r ∈ runBalance txs m M b grid →
      r.date ∈ grid ∧
      r.credits = dayCredits txs r.date ∧
      r.debits = dayDebits txs r.date ∧
      r.net_change = dayCredits txs r.date + dayDebits txs r.date ∧
      r.is_actual = mergedIsActual txs m M r.date ∧
      r.balance = b + ((grid.filter (fun g => decide (g ≤ r.date))).map
        (fun g => dayCredits txs g + dayDebits txs g)).sum := by
  intro grid
  induction grid with
  | nil =>
    intro b r _ hr
    simp [runBalance] at hr
  | cons d ds ih =>
    intro b r hpw hr
    rw [List.pairwise_cons] at hpw
    rw [runBalance_cons, List.mem_cons] at hr
    rcases hr with rfl | hr
    · refine ⟨List.mem_cons_self _ _, rfl, rfl, rfl, rfl, ?_⟩
      have hfilter : (d :: ds).filter (fun g => decide (g ≤ d)) = [d] := by
        rw [List.filter_cons, if_pos (by simp [Date.le_refl d])]
        have : ds.filter (fun g => decide (g ≤ d)) = [] := by
          rw [List.filter_eq_nil_iff]
          intro g hg
          simp only [decide_eq_true_eq]
          rw [Date.not_le]
          exact hpw.1 g hg
        rw [this]
      show b + (dayCredits txs d + dayDebits txs d) = _
      rw [hfilter, List.map_singleton, List.sum_singleton]
    · obtain ⟨h1, h2, h3, h4, h5, h6⟩ := ih _ r hpw.2 hr
      refine ⟨List.mem_cons_of_mem d h1, h2, h3, h4, h5, ?_⟩
      rw [h6]
      have hd : d < r.date := hpw.1 _ h1
      have hfilter : (d :: ds).filter (fun g => decide (g ≤ r.date)) =
          d :: ds.filter (fun g => decide (g ≤ r.date)) := by
        rw [List.filter_cons, if_pos (by simp [Date.le_of_lt hd])]
      rw [hfilter, List.map_cons, List.sum_cons]
      ring

theorem runBalance_view {txs : List Tx} {m M : Option Date} (vs ve : Date) :
    ∀ (grid : List Date) (b : Rat),
      ((runBalance txs m M b grid).filter
        (fun r => decide (vs ≤ r.date ∧ r.date ≤ ve))).map (fun r => r.date) =
      grid.filter (fun g => decide (vs ≤ g ∧ g ≤ ve)) := by
  intro grid
  induction grid with
  | nil => intro b; simp [runBalance]
  | cons d ds ih =>
    intro b
    rw [runBalance_cons, List.filter_cons, List.filter_cons]
    by_cases hp : decide (vs ≤ d ∧ d ≤ ve) = true
    · rw [if_pos hp, if_pos hp, List.map_cons, ih]
    · rw [if_neg hp, if_neg hp, ih]

theorem perm_all {α : Type} {l1 l2 : List α} (h : l1.Perm l2) (p : α → Bool) :
    l1.all p = l2.all p := by
  by_cases h1 : l1.all p = true
  · rw [h1]
    symm
    rw [List.all_eq_true] at *
    intro x hx
    exact h1 x (h.mem_iff.mpr hx)
  · have h2 : ¬ l2.all p = true := by
      rw [List.all_eq_true] at *
      intro hc
      exact h1 (fun x hx => hc x (h.mem_iff.mp hx))
    rw [Bool.not_eq_true] at h1 h2
    rw [h1, h2]

theorem gata_fst_perm (s : Store) (u : String) (A : Date) :
    ((get_all_transactions_after s u A).map Prod.fst).Perm
      (s.transactions.filter (fun t => decide (t.userId = u ∧ A ≤ t.date))) := by
  unfold get_all_transactions_after
  refine (List.Perm.map Prod.fst (List.mergeSort_perm _ txRowOrder)).trans ?_
  have h2 : (((s.transactions.filter
      (fun t => decide (t.userId = u ∧ A ≤ t.date))).map
      (fun t => (t, joinCategory s.categories t.categoryId))).map Prod.fst) =
      s.transactions.filter (fun t => decide (t.userId = u ∧ A ≤ t.date)) := by
    rw [List.map_map]
    exact show List.map (fun t => t) _ = _ from List.map_id' _
  rw [h2]

theorem get_calendar_data_of_settings {s : Store} {u : String} {st : Settings}
    (vs ve : Date) (hset : get_user_settings s u = some st) :
    get_calendar_data s u vs ve =
      if ((get_all_transactions_after s u st.startDate).map Prod.fst).isEmpty then
        (dateRange vs ve).map (fun d =>
          { date := d, credits := 0, debits := 0, net_change := 0,
            is_actual := true, balance := st.startBalance })
      else
        calendarMain st ((get_all_transactions_after s u st.startDate).map Prod.fst)
          vs ve := by
  unfold get_calendar_data
  rw [hset]

/-- The running balance of every returned row is the starting balance plus
the sum of the amounts of the user's occurrences dated between the anchor
date and the row's day, inclusive. -/
theorem calendar_balance_spec (s : Store) (u : String) (vs ve : Date) (st : Settings)
    (hset : get_user_settings s u = some st)
    (hA : st.startDate.Valid) (hve : ve.Valid)
    (htx : ∀ t ∈ s.transactions, t.userId = u → t.date.Valid) :
    ∀ r ∈ get_calendar_data s u vs ve,
      r.balance = st.startBalance +
        ((s.transactions.filter (fun t => decide (t.userId = u ∧
          st.startDate ≤ t.date ∧ t.date ≤ r.date))).map Tx.amount).sum := by
  intro r hr
  rw [get_calendar_data_of_settings vs ve hset] at hr
  have hperm := gata_fst_perm s u st.startDate
  by_cases hemp : ((get_all_transactions_after s u st.startDate).map Prod.fst).isEmpty
  · rw [if_pos hemp] at hr
    rw [List.mem_map] at hr
    obtain ⟨d, hd, rfl⟩ := hr
    have hFnil : s.transactions.filter
        (fun t => decide (t.userId = u ∧ st.startDate ≤ t.date)) = [] := by
      rw [List.isEmpty_iff] at hemp
      rw [hemp] at hperm
      exact (hperm.symm.eq_nil)
    have hsub : s.transactions.filter (fun t => decide (t.userId = u ∧
        st.startDate ≤ t.date ∧ t.date ≤ d)) = [] := by
      rw [List.filter_eq_nil_iff] at hFnil
      rw [List.filter_eq_nil_iff]
      intro t ht
      simp only [decide_eq_true_eq] at *
      intro hc
      exact hFnil t ht ⟨hc.1, hc.2.1⟩
    show st.startBalance = st.startBalance + _
    rw [hsub]
    simp
  · rw [if_neg hemp] at hr
    unfold calendarMain at hr
    obtain ⟨hrB, hview⟩ := List.mem_filter.mp hr
    rw [decide_eq_true_eq] at hview
    obtain ⟨hdate, hcr, hdb, hnet, hact, hbal⟩ :=
      runBalance_mem _ _ r (pairwise_dateRange hA hve) hrB
    rw [hbal]
    congr 1
    have hF : ∀ g ∈ (dateRange st.startDate ve).filter (fun g => decide (g ≤ r.date)),
        dayCredits ((get_all_transactions_after s u st.startDate).map Prod.fst) g +
          dayDebits ((get_all_transactions_after s u st.startDate).map Prod.fst) g =
        ((dayTxs (s.transactions.filter (fun t => decide (t.userId = u ∧
          st.startDate ≤ t.date))) g).map Tx.amount).sum := by
      intro g _
      rw [dayNet_eq]
      exact List.Perm.sum_eq (List.Perm.map Tx.amount (List.Perm.filter _ hperm))
    rw [List.map_congr_left hF]
    rw [sum_dayTxs_over_grid
      (s.transactions.filter (fun t => decide (t.userId = u ∧ st.startDate ≤ t.date)))
      ((dateRange st.startDate ve).filter (fun g => decide (g ≤ r.date)))
      (List.Nodup.filter _ (nodup_dateRange hA hve))]
    rw [List.filter_filter]
    apply congrArg List.sum
    apply congrArg (List.map Tx.amount)
    apply List.filter_congr
    intro t ht
    have hiff : (t.date ∈ (dateRange st.startDate ve).filter
          (fun g => decide (g ≤ r.date)) ∧
        (t.userId = u ∧ st.startDate ≤ t.date)) ↔
        (t.userId = u ∧ st.startDate ≤ t.date ∧ t.date ≤ r.date) := by
      constructor
      · rintro ⟨h3, h1, h2⟩
        rw [List.mem_filter, decide_eq_true_eq] at h3
        exact ⟨h1, h2, h3.2⟩
      · rintro ⟨h1, h2, h3⟩
        refine ⟨?_, h1, h2⟩
        rw [List.mem_filter, decide_eq_true_eq]
        refine ⟨?_, h3⟩
        rw [mem_dateRange hA hve]
        exact ⟨h2, Date.le_trans h3 hview.2, htx t ht h1⟩
    rw [show (decide (t.date ∈ (dateRange st.startDate ve).filter
          (fun g => decide (g ≤ r.date))) &&
        decide (t.userId = u ∧ st.startDate ≤ t.date)) =
        decide (t.date ∈ (dateRange st.startDate ve).filter
          (fun g => decide (g ≤ r.date)) ∧
          (t.userId = u ∧ st.startDate ≤ t.date))
      from (Bool.decide_and _ _).symm]
    exact decide_eq_decide.mpr hiff

/-- C1: for every user with stored settings (starting balance `B`, anchor
date `A`, both real calendar dates together with the user's transaction
dates) and every view window, every row returned by `get_calendar_data` for
a day on or after `A` has balance `B` plus the sum of the amounts of all of
that user's occurrences dated between `A` and that day inclusive,
independent of the requested view window. -/
theorem c1_balance_invariant (s : Store) (u : String) (vs ve : Date)
    (st : Settings) (r : DailySummary)
    (hset : get_user_settings s u = some st)
    (hA : st.startDate.Valid) (hve : ve.Valid)
    (htx : ∀ t ∈ s.transactions, t.userId = u → t.date.Valid)
    (hr : r ∈ get_calendar_data s u vs ve)
    (hd : st.startDate ≤ r.date) :
    r.balance = st.startBalance +
      ((s.transactions.filter (fun t => decide (t.userId = u ∧
        st.startDate ≤ t.date ∧ t.date ≤ r.date))).map Tx.amount).sum :=
  calendar_balance_spec s u vs ve st hset hA hve htx r hr

theorem Date.Valid.max {a b : Date} (ha : a.Valid) (hb : b.Valid) :
    (Date.max a b).Valid := by
  rcases Date.max_eq_or a b with h | h
  · rw [h]; exact ha
  · rw [h]; exact hb

theorem dateRange_filter_view {ve vs : Date} (hvs : vs.Valid) (hve : ve.Valid) :
    ∀ (n : Nat) (a : Date), a.Valid → dkey ve + 1 - dkey a ≤ n →
      (dateRangeF n a ve).filter (fun g => decide (vs ≤ g ∧ g ≤ ve)) =
        dateRange (Date.max a vs) ve := by
  intro n
  induction n with
  | zero =>
    intro a ha hn
    have hab : ¬ a ≤ ve := by
      intro hle
      have := dkey_le_of_le ha hve hle
      omega
    have hmax : ¬ Date.max a vs ≤ ve := by
      intro hle
      exact hab (Date.le_trans (Date.le_max_left a vs) hle)
    rw [dateRange_nil (ha.max hvs) hve hmax]
    rfl
  | succ n ih =>
    intro a ha hn
    simp only [dateRangeF]
    split
    · rename_i hab
      have hstep := dkey_lt_nextDay a
      rw [List.filter_cons]
      by_cases hvsa : vs ≤ a
      · have hmax : Date.max a vs = a := by
          unfold Date.max
          split
          · rename_i h
            exact Date.le_antisymm hvsa h
          · rfl
        rw [if_pos (by simp [hvsa, hab]), ih (nextDay a) ha.nextDay (by omega)]
        have hmax2 : Date.max (nextDay a) vs = nextDay a := by
          unfold Date.max
          rw [if_neg]
          rw [Date.not_le]
          exact Date.lt_of_le_of_lt hvsa (lt_nextDay a)
        rw [hmax2, hmax, dateRange_eq ha hve, if_pos hab]
      · have hlt : a < vs := Date.not_le.mp hvsa
        have hmax : Date.max a vs = vs := by
          unfold Date.max
          rw [if_pos (Date.le_of_lt hlt)]
        rw [if_neg (by simp [hvsa]), ih (nextDay a) ha.nextDay (by omega)]
        have hsucc : nextDay a ≤ vs := nextDay_le_of_lt ha hvs hlt
        have hmax2 : Date.max (nextDay a) vs = vs := by
          unfold Date.max
          rw [if_pos hsucc]
        rw [hmax2, hmax]
    · rename_i hab
      have hmax : ¬ Date.max a vs ≤ ve := by
        intro hle
        exact hab (Date.le_trans (Date.le_max_left a vs) hle)
      rw [dateRange_nil (ha.max hvs) hve hmax]
      rfl

/-- The dates of the rows of `get_calendar_data`: the full view window when
the user has no fetched transactions, the window clipped at the anchor date
otherwise. -/
theorem calendar_dates (s : Store) (u : String) (vs ve : Date) (st : Settings)
    (hset : get_user_settings s u = some st)
    (hA : st.startDate.Valid) (hvs : vs.Valid) (hve : ve.Valid) :
    (s.transactions.filter (fun t => decide (t.userId = u ∧ st.startDate ≤ t.date)) = [] →
      (get_calendar_data s u vs ve).map (fun r => r.date) = dateRange vs ve) ∧
    (s.transactions.filter (fun t => decide (t.userId = u ∧ st.startDate ≤ t.date)) ≠ [] →
      (get_calendar_data s u vs ve).map (fun r => r.date) =
        dateRange (Date.max st.startDate vs) ve) := by
  rw [get_calendar_data_of_settings vs ve hset]
  have hperm := gata_fst_perm s u st.startDate
  constructor
  · intro hF
    have hL : ((get_all_transactions_after s u st.startDate).map Prod.fst) = [] := by
      rw [hF] at hperm
      exact hperm.eq_nil
    rw [if_pos (List.isEmpty_iff.mpr hL), List.map_map]
    exact show List.map (fun d => d) _ = _ from List.map_id' _
  · intro hF
    have hL : ((get_all_transactions_after s u st.startDate).map Prod.fst) ≠ [] := by
      intro hc
      rw [hc] at hperm
      exact hF hperm.symm.eq_nil
    rw [if_neg (fun hc => hL (List.isEmpty_iff.mp hc))]
    unfold calendarMain
    rw [runBalance_view vs ve]
    exact dateRange_filter_view hvs hve _ st.startDate hA (Nat.le_refl _)

/-- C7 amended: for every user with stored settings and every view window
(all dates real calendar dates), the rows of `get_calendar_data` cover, one
per calendar day with no gaps, the window `[view_start, view_end]` when the
user has no occurrence dated on or after the anchor, and the clipped window
`[max(anchor, view_start), view_end]` otherwise (days of the window before
the anchor are missing); and on every returned day with no occurrences the
balance equals the prior day's balance exactly. -/
theorem c7_gap_continuity (s : Store) (u : String) (vs ve : Date) (st : Settings)
    (hset : get_user_settings s u = some st)
    (hA : st.startDate.Valid) (hvs : vs.Valid) (hve : ve.Valid)
    (htx : ∀ t ∈ s.transactions, t.userId = u → t.date.Valid) :
    (s.transactions.filter (fun t => decide (t.userId = u ∧ st.startDate ≤ t.date)) = [] →
      (get_calendar_data s u vs ve).map (fun r => r.date) = dateRange vs ve) ∧
    (s.transactions.filter (fun t => decide (t.userId = u ∧ st.startDate ≤ t.date)) ≠ [] →
      (get_calendar_data s u vs ve).map (fun r => r.date) =
        dateRange (Date.max st.startDate vs) ve) ∧
    (∀ r1 ∈ get_calendar_data s u vs ve, ∀ r2 ∈ get_calendar_data s u vs ve,
      r2.date = nextDay r1.date →
      s.transactions.filter (fun t => decide (t.userId = u ∧ t.date = r2.date)) = [] →
      r2.balance = r1.balance) := by
  obtain ⟨hdates1, hdates2⟩ := calendar_dates s u vs ve st hset hA hvs hve
  refine ⟨hdates1, hdates2, ?_⟩
  intro r1 h1 r2 h2 hnext hnone
  have hvalid1 : r1.date.Valid := by
    by_cases hF : s.transactions.filter
        (fun t => decide (t.userId = u ∧ st.startDate ≤ t.date)) = []
    · have hm : r1.date ∈ dateRange vs ve := by
        rw [← hdates1 hF]
        exact List.mem_map_of_mem _ h1
      exact ((mem_dateRange hvs hve _).mp hm).2.2
    · have hm : r1.date ∈ dateRange (Date.max st.startDate vs) ve := by
        rw [← hdates2 hF]
        exact List.mem_map_of_mem _ h1
      exact ((mem_dateRange (hA.max hvs) hve _).mp hm).2.2
  have hb1 := calendar_balance_spec s u vs ve st hset hA hve htx r1 h1
  have hb2 := calendar_balance_spec s u vs ve st hset hA hve htx r2 h2
  rw [hb1, hb2]
  congr 1
  apply congrArg List.sum
  apply congrArg (List.map Tx.amount)
  apply List.filter_congr
  intro t ht
  apply decide_eq_decide.mpr
  rw [List.filter_eq_nil_iff] at hnone
  constructor
  · rintro ⟨hu, hA2, hle⟩
    refine ⟨hu, hA2, ?_⟩
    by_cases hle1 : t.date ≤ r1.date
    · exact hle1
    · exfalso
      have hlt : r1.date < t.date := Date.not_le.mp hle1
      have hge : nextDay r1.date ≤ t.date := nextDay_le_of_lt hvalid1 (htx t ht hu) hlt
      have heq : t.date = r2.date := by
        rw [hnext]
        exact Date.le_antisymm (hnext ▸ hle) hge
      exact hnone t ht (by rw [decide_eq_true_eq]; exact ⟨hu, heq⟩)
  · rintro ⟨hu, hA2, hle⟩
    refine ⟨hu, hA2, ?_⟩
    rw [hnext]
    exact Date.le_trans hle (Date.le_of_lt (lt_nextDay r1.date))

set_option maxRecDepth 100000 in
/-- C7 counterexample: with anchor date 2024-01-05 and view window
2024-01-01 through 2024-01-08, the returned rows cover only 2024-01-05
through 2024-01-08: the window days before the anchor are missing, so the
sequence does not have one entry per calendar day of the view window. -/
theorem c7_counterexample :
    (get_calendar_data c7Store "u" ⟨2024, 1, 1⟩ ⟨2024, 1, 8⟩).map (fun r => r.date) =
      [⟨2024, 1, 5⟩, ⟨2024, 1, 6⟩, ⟨2024, 1, 7⟩, ⟨2024, 1, 8⟩] ∧
    (get_calendar_data c7Store "u" ⟨2024, 1, 1⟩ ⟨2024, 1, 8⟩).filter
      (fun r => decide (r.date = ⟨2024, 1, 1⟩)) = [] := by
  constructor
  · with_unfolding_all rfl
  · with_unfolding_all rfl

theorem c7_witness :
    (c7Store.transactions.filter (fun t => decide (t.userId = "u" ∧
        (⟨2024, 1, 5⟩ : Date) ≤ t.date)) = [] →
      (get_calendar_data c7Store "u" ⟨2024, 1, 1⟩ ⟨2024, 1, 8⟩).map (fun r => r.date) =
        dateRange ⟨2024, 1, 1⟩ ⟨2024, 1, 8⟩) ∧
    (c7Store.transactions.filter (fun t => decide (t.userId = "u" ∧
        (⟨2024, 1, 5⟩ : Date) ≤ t.date)) ≠ [] →
      (get_calendar_data c7Store "u" ⟨2024, 1, 1⟩ ⟨2024, 1, 8⟩).map (fun r => r.date) =
        dateRange (Date.max ⟨2024, 1, 5⟩ ⟨2024, 1, 1⟩) ⟨2024, 1, 8⟩) ∧
    (∀ r1 ∈ get_calendar_data c7Store "u" ⟨2024, 1, 1⟩ ⟨2024, 1, 8⟩,
      ∀ r2 ∈ get_calendar_data c7Store "u" ⟨2024, 1, 1⟩ ⟨2024, 1, 8⟩,
      r2.date = nextDay r1.date →
      c7Store.transactions.filter (fun t => decide (t.userId = "u" ∧
        t.date = r2.date)) = [] →
      r2.balance = r1.balance) :=
  c7_gap_continuity c7Store "u" ⟨2024, 1, 1⟩ ⟨2024, 1, 8⟩ ⟨"u", 0, ⟨2024, 1, 5⟩⟩
    rfl (by decide) (by decide) (by decide) (by decide)

/-- C8 amended: in every returned row, `is_actual` is true iff either the
user has no occurrence dated on or after the anchor (the flat branch, all
rows true), or the row's day both lies within the span from the user's first
to last fetched occurrence date and every occurrence dated that day is
confirmed.  In particular a day with no occurrences has `is_actual` true
only inside that span; before the first or after the last occurrence date it
is false (`fillna(0)` then `astype(bool)`). -/
theorem c8_is_actual (s : Store) (u : String) (vs ve : Date) (st : Settings)
    (hset : get_user_settings s u = some st)
    (hA : st.startDate.Valid) (hve : ve.Valid) :
    ∀ r ∈ get_calendar_data s u vs ve,
      (r.is_actual = true ↔
        (s.transactions.filter (fun t => decide (t.userId = u ∧
            st.startDate ≤ t.date)) = [] ∨
         ((∃ lo ∈ s.transactions.filter (fun t => decide (t.userId = u ∧
            st.startDate ≤ t.date)), lo.date ≤ r.date) ∧
          (∃ hi ∈ s.transactions.filter (fun t => decide (t.userId = u ∧
            st.startDate ≤ t.date)), r.date ≤ hi.date) ∧
          (∀ t ∈ s.transactions.filter (fun t => decide (t.userId = u ∧
            st.startDate ≤ t.date)), t.date = r.date → t.isConfirmed = 1)))) := by
  intro r hr
  rw [get_calendar_data_of_settings vs ve hset] at hr
  have hperm := gata_fst_perm s u st.startDate
  by_cases hemp : ((get_all_transactions_after s u st.startDate).map Prod.fst).isEmpty
  · rw [if_pos hemp] at hr
    rw [List.mem_map] at hr
    obtain ⟨d, hd, rfl⟩ := hr
    have hF : s.transactions.filter (fun t => decide (t.userId = u ∧
        st.startDate ≤ t.date)) = [] := by
      rw [List.isEmpty_iff] at hemp
      rw [hemp] at hperm
      exact hperm.symm.eq_nil
    constructor
    · intro _
      exact Or.inl hF
    · intro _
      rfl
  · rw [if_neg hemp] at hr
    unfold calendarMain at hr
    obtain ⟨hrB, hview⟩ := List.mem_filter.mp hr
    obtain ⟨hdate, hcredits, hdebits, hnetc, hact, hbal⟩ :=
      runBalance_mem _ _ r (pairwise_dateRange hA hve) hrB
    have hLne : ((get_all_transactions_after s u st.startDate).map Prod.fst) ≠ [] :=
      fun hc => hemp (List.isEmpty_iff.mpr hc)
    have hFne : s.transactions.filter (fun t => decide (t.userId = u ∧
        st.startDate ≤ t.date)) ≠ [] := by
      intro hc
      rw [hc] at hperm
      exact hLne hperm.eq_nil
    have hmapne : ((get_all_transactions_after s u st.startDate).map Prod.fst).map
        Tx.date ≠ [] := fun hc => hLne (List.map_eq_nil_iff.mp hc)
    obtain ⟨mn, hmn⟩ := minDate?_isSome hmapne
    obtain ⟨mx, hmx⟩ := maxDate?_isSome hmapne
    rw [hact]
    unfold mergedIsActual
    rw [hmn, hmx]
    show (if mn ≤ r.date ∧ r.date ≤ mx then
        dayAllConfirmed ((get_all_transactions_after s u st.startDate).map Prod.fst)
          r.date
      else false) = true ↔ _
    have hpermd := List.Perm.map Tx.date hperm
    have hmin_iff : mn ≤ r.date ↔ ∃ lo ∈ s.transactions.filter
        (fun t => decide (t.userId = u ∧ st.startDate ≤ t.date)), lo.date ≤ r.date := by
      constructor
      · intro hle
        have hmem := minDate?_mem hmn
        have h2 : mn ∈ (s.transactions.filter (fun t => decide (t.userId = u ∧
            st.startDate ≤ t.date))).map Tx.date := hpermd.mem_iff.mp hmem
        rw [List.mem_map] at h2
        obtain ⟨lo, hlo, he⟩ := h2
        exact ⟨lo, hlo, he ▸ hle⟩
      · rintro ⟨lo, hlo, hle⟩
        have h2 : lo.date ∈ ((get_all_transactions_after s u st.startDate).map
            Prod.fst).map Tx.date := hpermd.mem_iff.mpr (List.mem_map_of_mem _ hlo)
        exact Date.le_trans (minDate?_lb hmn _ h2) hle
    have hmax_iff : r.date ≤ mx ↔ ∃ hi ∈ s.transactions.filter
        (fun t => decide (t.userId = u ∧ st.startDate ≤ t.date)), r.date ≤ hi.date := by
      constructor
      · intro hle
        have hmem := maxDate?_mem hmx
        have h2 : mx ∈ (s.transactions.filter (fun t => decide (t.userId = u ∧
            st.startDate ≤ t.date))).map Tx.date := hpermd.mem_iff.mp hmem
        rw [List.mem_map] at h2
        obtain ⟨hi, hhi, he⟩ := h2
        exact ⟨hi, hhi, he ▸ hle⟩
      · rintro ⟨hi, hhi, hle⟩
        have h2 : hi.date ∈ ((get_all_transactions_after s u st.startDate).map
            Prod.fst).map Tx.date := hpermd.mem_iff.mpr (List.mem_map_of_mem _ hhi)
        exact Date.le_trans hle (maxDate?_ub hmx _ h2)
    have hconf_iff : dayAllConfirmed
        ((get_all_transactions_after s u st.startDate).map Prod.fst) r.date = true ↔
        (∀ t ∈ s.transactions.filter (fun t => decide (t.userId = u ∧
          st.startDate ≤ t.date)), t.date = r.date → t.isConfirmed = 1) := by
      unfold dayAllConfirmed dayTxs
      rw [List.all_eq_true]
      constructor
      · intro hall t htF hdate2
        have hmemf : t ∈ ((get_all_transactions_after s u st.startDate).map
            Prod.fst).filter (fun t => decide (t.date = r.date)) :=
          (hperm.filter _).mem_iff.mpr
            (List.mem_filter.mpr ⟨htF, by simp [hdate2]⟩)
        have := hall t hmemf
        simpa using this
      · intro hall t htL
        rw [List.mem_filter] at htL
        have htF := hperm.mem_iff.mp htL.1
        have hd2 : t.date = r.date := by simpa using htL.2
        have := hall t htF hd2
        simp [this]
    by_cases hspan : mn ≤ r.date ∧ r.date ≤ mx
    · rw [if_pos hspan, hconf_iff]
      constructor
      · intro hc
        exact Or.inr ⟨hmin_iff.mp hspan.1, hmax_iff.mp hspan.2, hc⟩
      · rintro (hc | ⟨hc1, hc2, hc⟩)
        · exact absurd hc hFne
        · exact hc
    · rw [if_neg hspan]
      constructor
      · intro hc
        exact absurd hc (by simp)
      · rintro (hc | ⟨hlo, hhi, hc⟩)
        · exact absurd hc hFne
        · exact absurd ⟨hmin_iff.mpr hlo, hmax_iff.mpr hhi⟩ hspan

set_option maxRecDepth 100000 in
/-- C8 counterexample: with anchor 2024-01-01 and a single confirmed
occurrence on 2024-01-03, the returned row for 2024-01-01 — a day with no
occurrences — has `is_actual = false`, because the day precedes the first
occurrence date and the left merge leaves NaN there, which `fillna(0)` and
`astype(bool)` turn into `false`. -/
theorem c8_counterexample :
    (get_calendar_data c8Store "u" ⟨2024, 1, 1⟩ ⟨2024, 1, 5⟩).filter
      (fun r => decide (r.date = ⟨2024, 1, 1⟩)) =
      [⟨⟨2024, 1, 1⟩, 0, 0, 0, false, 0⟩] ∧
    c8Store.transactions.filter (fun t => decide (t.userId = "u" ∧
      t.date = ⟨2024, 1, 1⟩)) = [] := by
  constructor
  · with_unfolding_all rfl
  · decide

set_option maxRecDepth 100000 in
theorem c8_witness :
    (⟨⟨2024, 1, 3⟩, 5, 0, 5, true, 5⟩ : DailySummary) ∈
      get_calendar_data c8Store "u" ⟨2024, 1, 1⟩ ⟨2024, 1, 5⟩ ∧
    ((⟨⟨2024, 1, 3⟩, 5, 0, 5, true, 5⟩ : DailySummary).is_actual = true ↔
      (c8Store.transactions.filter (fun t => decide (t.userId = "u" ∧
          (⟨2024, 1, 1⟩ : Date) ≤ t.date)) = [] ∨
       ((∃ lo ∈ c8Store.transactions.filter (fun t => decide (t.userId = "u" ∧
          (⟨2024, 1, 1⟩ : Date) ≤ t.date)),
          lo.date ≤ (⟨⟨2024, 1, 3⟩, 5, 0, 5, true, 5⟩ : DailySummary).date) ∧
        (∃ hi ∈ c8Store.transactions.filter (fun t => decide (t.userId = "u" ∧
          (⟨2024, 1, 1⟩ : Date) ≤ t.date)),
          (⟨⟨2024, 1, 3⟩, 5, 0, 5, true, 5⟩ : DailySummary).date ≤ hi.date) ∧
        (∀ t ∈ c8Store.transactions.filter (fun t => decide (t.userId = "u" ∧
          (⟨2024, 1, 1⟩ : Date) ≤ t.date)),
          t.date = (⟨⟨2024, 1, 3⟩, 5, 0, 5, true, 5⟩ : DailySummary).date →
          t.isConfirmed = 1)))) := by
  have hcal : get_calendar_data c8Store "u" ⟨2024, 1, 1⟩ ⟨2024, 1, 5⟩ =
      [⟨⟨2024, 1, 1⟩, 0, 0, 0, false, 0⟩, ⟨⟨2024, 1, 2⟩, 0, 0, 0, false, 0⟩,
       ⟨⟨2024, 1, 3⟩, 5, 0, 5, true, 5⟩, ⟨⟨2024, 1, 4⟩, 0, 0, 0, false, 5⟩,
       ⟨⟨2024, 1, 5⟩, 0, 0, 0, false, 5⟩] := by
    with_unfolding_all rfl
  have hmem : (⟨⟨2024, 1, 3⟩, 5, 0, 5, true, 5⟩ : DailySummary) ∈
      get_calendar_data c8Store "u" ⟨2024, 1, 1⟩ ⟨2024, 1, 5⟩ := by
    rw [hcal]
    exact List.mem_cons_of_mem _ (List.mem_cons_of_mem _ (List.mem_cons_self _ _))
  exact ⟨hmem, c8_is_actual c8Store "u" ⟨2024, 1, 1⟩ ⟨2024, 1, 5⟩
    ⟨"u", 0, ⟨2024, 1, 1⟩⟩ rfl (by decide) (by decide) _ hmem⟩

set_option maxRecDepth 100000 in
theorem c1_witness :
    c1Row ∈ get_calendar_data c1Store "u" ⟨2024, 1, 1⟩ ⟨2024, 1, 3⟩ ∧
      c1Row.balance = (100 : Rat) +
        ((c1Store.transactions.filter (fun t => decide (t.userId = "u" ∧
          (⟨2024, 1, 1⟩ : Date) ≤ t.date ∧ t.date ≤ c1Row.date))).map Tx.amount).sum := by
  have hcal : get_calendar_data c1Store "u" ⟨2024, 1, 1⟩ ⟨2024, 1, 3⟩ =
      [⟨⟨2024, 1, 1⟩, 0, 0, 0, false, 100⟩, c1Row,
       ⟨⟨2024, 1, 3⟩, 0, 0, 0, false, 105⟩] := by
    with_unfolding_all rfl
  have hmem : c1Row ∈ get_calendar_data c1Store "u" ⟨2024, 1, 1⟩ ⟨2024, 1, 3⟩ := by
    rw [hcal]
    exact List.mem_cons_of_mem _ (List.mem_cons_self _ _)
  exact ⟨hmem,
    c1_balance_invariant c1Store "u" ⟨2024, 1, 1⟩ ⟨2024, 1, 3⟩
      ⟨"u", 100, ⟨2024, 1, 1⟩⟩ c1Row rfl (by decide) (by decide)
      (by decide) hmem (by decide)⟩

theorem c3_witness :
    expandSchedule 10 c3Store "u" c3Schedule ⟨2024, 3, 15⟩ = some c3StoreAfter ∧
      expandSchedule 10 c3StoreAfter "u" c3Schedule ⟨2024, 3, 15⟩ = some c3StoreAfter :=
  ⟨by decide,
   c3_expand_idempotent 10 c3Store c3StoreAfter "u" c3Schedule ⟨2024, 3, 15⟩
     (by decide) (by decide) (by decide)⟩

/-!
## Per-user isolation
-/

theorem find?_eq_head_of_filter {α : Type} (p : α → Bool) :
    ∀ l : List α, l.find? p = (l.filter p).head? := by
  intro l
  induction l with
  | nil => rfl
  | cons a l ih =>
    cases hpa : p a
    · rw [List.find?_cons_of_neg _ (by simp [hpa]),
        List.filter_cons_of_neg (by simp [hpa])]
      exact ih
    · rw [List.find?_cons_of_pos _ hpa, List.filter_cons_of_pos hpa]
      rfl

theorem filter_map_untouched {α : Type} (p : α → Bool) (f : α → α)
    (hf : ∀ x, p x = true → f x = x) (hp : ∀ x, p (f x) = p x) :
    ∀ l : List α, (l.map f).filter p = l.filter p := by
  intro l
  induction l with
  | nil => rfl
  | cons a l ih =>
    rw [List.map_cons, List.filter_cons, List.filter_cons, hp a, ih]
    cases hpa : p a
    · simp [hpa]
    · simp [hpa, hf a hpa]

theorem filter_filter_untouched {α : Type} (p q : α → Bool)
    (hq : ∀ x, p x = true → q x = true) :
    ∀ l : List α, (l.filter q).filter p = l.filter p := by
  intro l
  induction l with
  | nil => rfl
  | cons a l ih =>
    cases hqa : q a
    · have hpa : p a = false := by
        cases hpa : p a
        · rfl
        · exact absurd (hq a hpa) (by simp [hqa])
      simp [List.filter_cons, hqa, hpa, ih]
    · simp [List.filter_cons, hqa, ih]

theorem filter_append_other {α : Type} (p : α → Bool) (l : List α) (x : α)
    (hx : p x = false) : (l ++ [x]).filter p = l.filter p := by
  rw [List.filter_append]
  simp [List.filter_cons, hx]

theorem userRows_delete_category (s : Store) (cid : Nat) (u v : String)
    (huv : v ≠ u) : userRows u (delete_category s cid v) = userRows u s := by
  have h1 : ((s.transactions.map (fun t =>
      if t.categoryId = some cid ∧ t.userId = v then
        { t with categoryId := none } else t)).filter
        (fun t => decide (t.userId = u))) =
      s.transactions.filter (fun t => decide (t.userId = u)) := by
    apply filter_map_untouched
    · intro t ht
      have hu : t.userId = u := of_decide_eq_true ht
      rw [if_neg]
      intro hcond
      exact huv (by rw [← hcond.2, hu])
    · intro t
      split <;> rfl
  have h2 : ((s.schedules.map (fun r =>
      if r.categoryId = some cid ∧ r.userId = v then
        { r with categoryId := none } else r)).filter
        (fun r => decide (r.userId = u))) =
      s.schedules.filter (fun r => decide (r.userId = u)) := by
    apply filter_map_untouched
    · intro r hr
      have hu : r.userId = u := of_decide_eq_true hr
      rw [if_neg]
      intro hcond
      exact huv (by rw [← hcond.2, hu])
    · intro r
      split <;> rfl
  have h3 : ((s.categories.filter (fun c =>
      decide (¬ (c.categoryId = cid ∧ c.userId = v)))).filter
        (fun c => decide (c.userId = u))) =
      s.categories.filter (fun c => decide (c.userId = u)) := by
    apply filter_filter_untouched
    intro c hc
    have hu : c.userId = u := of_decide_eq_true hc
    apply decide_eq_true
    intro hcond
    exact huv (by rw [← hcond.2, hu])
  show (_, _, _, _) = (_, _, _, _)
  rw [show (delete_category s cid v).transactions = s.transactions.map (fun t =>
      if t.categoryId = some cid ∧ t.userId = v then
        { t with categoryId := none } else t) from rfl,
    show (delete_category s cid v).schedules = s.schedules.map (fun r =>
      if r.categoryId = some cid ∧ r.userId = v then
        { r with categoryId := none } else r) from rfl,
    show (delete_category s cid v).categories = s.categories.filter (fun c =>
      decide (¬ (c.categoryId = cid ∧ c.userId = v))) from rfl,
    show (delete_category s cid v).settings = s.settings from rfl,
    h1, h2, h3]

theorem userRows_delete_schedule (s : Store) (sid : Nat) (u v : String)
    (df : Bool) (huv : v ≠ u) :
    userRows u (delete_scheduled_transaction s sid v df) = userRows u s := by
  have hsched : ∀ l : List Schedule,
      (l.filter (fun r => decide (¬ (r.scheduleId = sid ∧ r.userId = v)))).filter
        (fun r => decide (r.userId = u)) =
      l.filter (fun r => decide (r.userId = u)) := by
    intro l
    apply filter_filter_untouched
    intro r hr
    have hu : r.userId = u := of_decide_eq_true hr
    apply decide_eq_true
    intro hcond
    exact huv (by rw [← hcond.2, hu])
  have htx : ((s.transactions.filter (fun t =>
      decide (¬ (t.scheduleId = some sid ∧ t.userId = v ∧
        t.isConfirmed = 0)))).filter (fun t => decide (t.userId = u))) =
      s.transactions.filter (fun t => decide (t.userId = u)) := by
    apply filter_filter_untouched
    intro t ht
    have hu : t.userId = u := of_decide_eq_true ht
    apply decide_eq_true
    intro hcond
    exact huv (by rw [← hcond.2.1, hu])
  cases df
  · show (_, _, _, _) = (_, _, _, _)
    rw [show (delete_scheduled_transaction s sid v false).transactions =
        s.transactions from rfl,
      show (delete_scheduled_transaction s sid v false).schedules =
        s.schedules.filter (fun r =>
          decide (¬ (r.scheduleId = sid ∧ r.userId = v))) from rfl,
      show (delete_scheduled_transaction s sid v false).categories =
        s.categories from rfl,
      show (delete_scheduled_transaction s sid v false).settings =
        s.settings from rfl,
      hsched s.schedules]
  · show (_, _, _, _) = (_, _, _, _)
    rw [show (delete_scheduled_transaction s sid v true).transactions =
        s.transactions.filter (fun t =>
          decide (¬ (t.scheduleId = some sid ∧ t.userId = v ∧
            t.isConfirmed = 0))) from rfl,
      show (delete_scheduled_transaction s sid v true).schedules =
        s.schedules.filter (fun r =>
          decide (¬ (r.scheduleId = sid ∧ r.userId = v))) from rfl,
      show (delete_scheduled_transaction s sid v true).categories =
        s.categories from rfl,
      show (delete_scheduled_transaction s sid v true).settings =
        s.settings from rfl,
      hsched s.schedules, htx]

theorem userRows_add_other (s : Store) (u v : String) (huv : v ≠ u)
    (dt : Date) (cat : Option Nat) (desc : String) (amt : Rat) (conf : Nat)
    (schid : Option Nat) :
    userRows u (add_transaction s v dt cat desc amt conf schid).1 =
      userRows u s := by
  show (_, _, _, _) = (_, _, _, _)
  rw [show (add_transaction s v dt cat desc amt conf schid).1.transactions =
      s.transactions ++
        [{ txId := s.nextTxId, userId := v, scheduleId := schid,
           categoryId := cat, date := dt, description := desc,
           amount := amt, isConfirmed := conf }] from rfl,
    show (add_transaction s v dt cat desc amt conf schid).1.schedules =
      s.schedules from rfl,
    show (add_transaction s v dt cat desc amt conf schid).1.categories =
      s.categories from rfl,
    show (add_transaction s v dt cat desc amt conf schid).1.settings =
      s.settings from rfl,
    filter_append_other _ s.transactions _ (decide_eq_false huv)]

theorem agree_of_userRows {u : String} {s1 s2 : Store}
    (h : userRows u s1 = userRows u s2) : AgreeU u s1 s2 := by
  unfold userRows at h
  simp only [Prod.mk.injEq] at h
  exact ⟨congrArg (List.map stripTx) h.1, h.2.1, h.2.2.2⟩

theorem filter_of_map {α β : Type} (f : α → β) (p : β → Bool) :
    ∀ l : List α, (l.map f).filter p = (l.filter (fun x => p (f x))).map f := by
  intro l
  induction l with
  | nil => rfl
  | cons a l ih =>
    simp only [List.map_cons, List.filter_cons]
    cases hpa : p (f a)
    · simp [hpa, ih]
    · simp [hpa, ih]

theorem all_of_map {α β : Type} (f : α → β) (p : β → Bool) :
    ∀ l : List α, (l.map f).all p = l.all (fun x => p (f x)) := by
  intro l
  induction l with
  | nil => rfl
  | cons a l ih => simp only [List.map_cons, List.all_cons, ih]

theorem map_stripTx_filter_congr (p : TxData → Bool) {l1 l2 : List Tx}
    (h : l1.map stripTx = l2.map stripTx) :
    (l1.filter (fun t => p (stripTx t))).map stripTx =
      (l2.filter (fun t => p (stripTx t))).map stripTx := by
  calc (l1.filter (fun t => p (stripTx t))).map stripTx
      = (l1.map stripTx).filter p := (filter_of_map stripTx p l1).symm
    _ = (l2.map stripTx).filter p := by rw [h]
    _ = (l2.filter (fun t => p (stripTx t))).map stripTx :=
        filter_of_map stripTx p l2

theorem dayCredits_strip {l1 l2 : List Tx}
    (h : (l1.map stripTx).Perm (l2.map stripTx)) (d : Date) :
    dayCredits l1 d = dayCredits l2 d := by
  have key : ∀ l : List Tx, dayCredits l d =
      (((l.map stripTx).filter (fun x => decide (x.date = d))).map
        (fun x => if 0 < x.amount then x.amount else 0)).sum := by
    intro l
    show ((l.filter (fun t => decide (t.date = d))).map txCredits).sum = _
    rw [filter_of_map stripTx (fun x => decide (x.date = d)) l, List.map_map]
    rfl
  rw [key l1, key l2]
  exact List.Perm.sum_eq (List.Perm.map _ (List.Perm.filter _ h))

theorem dayDebits_strip {l1 l2 : List Tx}
    (h : (l1.map stripTx).Perm (l2.map stripTx)) (d : Date) :
    dayDebits l1 d = dayDebits l2 d := by
  have key : ∀ l : List Tx, dayDebits l d =
      (((l.map stripTx).filter (fun x => decide (x.date = d))).map
        (fun x => if x.amount ≤ 0 then x.amount else 0)).sum := by
    intro l
    show ((l.filter (fun t => decide (t.date = d))).map txDebits).sum = _
    rw [filter_of_map stripTx (fun x => decide (x.date = d)) l, List.map_map]
    rfl
  rw [key l1, key l2]
  exact List.Perm.sum_eq (List.Perm.map _ (List.Perm.filter _ h))

theorem dayAllConfirmed_strip {l1 l2 : List Tx}
    (h : (l1.map stripTx).Perm (l2.map stripTx)) (d : Date) :
    dayAllConfirmed l1 d = dayAllConfirmed l2 d := by
  have key : ∀ l : List Tx, dayAllConfirmed l d =
      ((l.map stripTx).filter (fun x => decide (x.date = d))).all
        (fun x => x.isConfirmed == 1) := by
    intro l
    show (l.filter (fun t => decide (t.date = d))).all
      (fun t => t.isConfirmed == 1) = _
    rw [filter_of_map stripTx (fun x => decide (x.date = d)) l,
      all_of_map stripTx (fun x => x.isConfirmed == 1)]
    rfl
  rw [key l1, key l2]
  exact perm_all (List.Perm.filter _ h) _

theorem mergedIsActual_strip {l1 l2 : List Tx}
    (h : (l1.map stripTx).Perm (l2.map stripTx)) (mn mx : Option Date)
    (d : Date) : mergedIsActual l1 mn mx d = mergedIsActual l2 mn mx d := by
  unfold mergedIsActual
  cases mn with
  | none => rfl
  | some lo =>
    cases mx with
    | none => rfl
    | some hi =>
      show (if lo ≤ d ∧ d ≤ hi then dayAllConfirmed l1 d else false) =
        (if lo ≤ d ∧ d ≤ hi then dayAllConfirmed l2 d else false)
      by_cases hcond : lo ≤ d ∧ d ≤ hi
      · rw [if_pos hcond, if_pos hcond, dayAllConfirmed_strip h d]
      · rw [if_neg hcond, if_neg hcond]

theorem maxDate?_perm {l1 l2 : List Date} (h : l1.Perm l2) :
    maxDate? l1 = maxDate? l2 := by
  cases h1 : maxDate? l1 with
  | none =>
    have hnil : l1 = [] := maxDate?_eq_none.mp h1
    rw [hnil] at h
    rw [maxDate?_eq_none.mpr h.symm.eq_nil]
  | some m =>
    cases h2 : maxDate? l2 with
    | none =>
      have hnil : l2 = [] := maxDate?_eq_none.mp h2
      rw [hnil] at h
      rw [h.eq_nil] at h1
      simp [maxDate?] at h1
    | some m2 =>
      have h3 : m ≤ m2 := maxDate?_ub h2 m (h.mem_iff.mp (maxDate?_mem h1))
      have h4 : m2 ≤ m := maxDate?_ub h1 m2 (h.mem_iff.mpr (maxDate?_mem h2))
      exact congrArg some (Date.le_antisymm h3 h4)

theorem minDate?_perm {l1 l2 : List Date} (h : l1.Perm l2) :
    minDate? l1 = minDate? l2 := by
  cases h1 : minDate? l1 with
  | none =>
    have hnil : l1 = [] := minDate?_eq_none_aux.mp h1
    rw [hnil] at h
    rw [minDate?_eq_none_aux.mpr h.symm.eq_nil]
  | some m =>
    cases h2 : minDate? l2 with
    | none =>
      have hnil : l2 = [] := minDate?_eq_none_aux.mp h2
      rw [hnil] at h
      rw [h.eq_nil] at h1
      simp [minDate?] at h1
    | some m2 =>
      have h3 : m ≤ m2 := minDate?_lb h1 m2 (h.mem_iff.mpr (minDate?_mem h2))
      have h4 : m2 ≤ m := minDate?_lb h2 m (h.mem_iff.mp (minDate?_mem h1))
      exact congrArg some (Date.le_antisymm h3 h4)

theorem runBalance_strip {l1 l2 : List Tx}
    (h : (l1.map stripTx).Perm (l2.map stripTx)) (mn mx : Option Date) :
    ∀ (grid : List Date) (bal : Rat),
      runBalance l1 mn mx bal grid = runBalance l2 mn mx bal grid := by
  intro grid
  induction grid with
  | nil => intro bal; rfl
  | cons d ds ih =>
    intro bal
    rw [runBalance_cons, runBalance_cons, dayCredits_strip h d,
      dayDebits_strip h d, mergedIsActual_strip h mn mx d, ih]

theorem tx_filter_date_split (u : String) (A : Date) :
    ∀ l : List Tx, l.filter (fun t => decide (t.userId = u ∧ A ≤ t.date)) =
      (l.filter (fun t => decide (t.userId = u))).filter
        (fun t => decide (A ≤ t.date)) := by
  intro l
  induction l with
  | nil => rfl
  | cons a l ih =>
    by_cases hp : a.userId = u
    · by_cases hq : A ≤ a.date
      · rw [List.filter_cons, List.filter_cons,
          if_pos (decide_eq_true (⟨hp, hq⟩ : a.userId = u ∧ A ≤ a.date)),
          if_pos (decide_eq_true hp), List.filter_cons,
          if_pos (decide_eq_true hq), ih]
      · rw [List.filter_cons, List.filter_cons, if_neg (by simp [hp, hq]),
          if_pos (decide_eq_true hp), List.filter_cons,
          if_neg (by simp [hq]), ih]
    · rw [List.filter_cons, List.filter_cons, if_neg (by simp [hp]),
        if_neg (by simp [hp]), ih]

theorem tx_filter_sched_split (u : String) (sid : Nat) :
    ∀ l : List Tx,
      l.filter (fun t => decide (t.userId = u ∧ t.scheduleId = some sid)) =
      (l.filter (fun t => decide (t.userId = u))).filter
        (fun t => decide (t.scheduleId = some sid)) := by
  intro l
  induction l with
  | nil => rfl
  | cons a l ih =>
    by_cases hp : a.userId = u
    · by_cases hq : a.scheduleId = some sid
      · rw [List.filter_cons, List.filter_cons,
          if_pos (decide_eq_true
            (⟨hp, hq⟩ : a.userId = u ∧ a.scheduleId = some sid)),
          if_pos (decide_eq_true hp), List.filter_cons,
          if_pos (decide_eq_true hq), ih]
      · rw [List.filter_cons, List.filter_cons, if_neg (by simp [hp, hq]),
          if_pos (decide_eq_true hp), List.filter_cons,
          if_neg (by simp [hq]), ih]
    · rw [List.filter_cons, List.filter_cons, if_neg (by simp [hp]),
        if_neg (by simp [hp]), ih]

theorem map_date_of_strip (l : List Tx) :
    l.map Tx.date = (l.map stripTx).map (fun x => x.date) := by
  rw [List.map_map]
  rfl

theorem gata_strip_congr {u : String} {s1 s2 : Store} (hA : AgreeU u s1 s2)
    (A : Date) :
    (((get_all_transactions_after s1 u A).map Prod.fst).map stripTx).Perm
      (((get_all_transactions_after s2 u A).map Prod.fst).map stripTx) := by
  have key : (s1.transactions.filter
      (fun t => decide (t.userId = u ∧ A ≤ t.date))).map stripTx =
      (s2.transactions.filter
        (fun t => decide (t.userId = u ∧ A ≤ t.date))).map stripTx := by
    rw [tx_filter_date_split, tx_filter_date_split]
    exact map_stripTx_filter_congr (fun x => decide (A ≤ x.date)) hA.1
  have h1 := List.Perm.map stripTx (gata_fst_perm s1 u A)
  have h2 := List.Perm.map stripTx (gata_fst_perm s2 u A)
  rw [key] at h1
  exact h1.trans h2.symm

theorem glg_strip_congr {u : String} {s1 s2 : Store} (hA : AgreeU u s1 s2)
    (sid : Nat) :
    get_last_generated_date s1 u sid = get_last_generated_date s2 u sid := by
  unfold get_last_generated_date
  have hstrip : ((s1.transactions.filter
      (fun t => decide (t.userId = u))).filter
        (fun t => decide (t.scheduleId = some sid))).map stripTx =
      ((s2.transactions.filter (fun t => decide (t.userId = u))).filter
        (fun t => decide (t.scheduleId = some sid))).map stripTx :=
    map_stripTx_filter_congr (fun x => decide (x.scheduleId = some sid)) hA.1
  have key : (s1.transactions.filter (fun t =>
      decide (t.userId = u ∧ t.scheduleId = some sid))).map Tx.date =
      (s2.transactions.filter (fun t =>
        decide (t.userId = u ∧ t.scheduleId = some sid))).map Tx.date := by
    rw [tx_filter_sched_split, tx_filter_sched_split, map_date_of_strip,
      map_date_of_strip, hstrip]
  rw [key]

theorem get_user_settings_congr {u : String} {s1 s2 : Store}
    (hA : AgreeU u s1 s2) :
    get_user_settings s1 u = get_user_settings s2 u := by
  unfold get_user_settings
  rw [find?_eq_head_of_filter, find?_eq_head_of_filter, hA.2.2]

theorem calendarMain_strip {l1 l2 : List Tx}
    (h : (l1.map stripTx).Perm (l2.map stripTx)) (st : Settings)
    (vs ve : Date) : calendarMain st l1 vs ve = calendarMain st l2 vs ve := by
  unfold calendarMain
  have hdates : (l1.map Tx.date).Perm (l2.map Tx.date) := by
    rw [map_date_of_strip, map_date_of_strip]
    exact h.map _
  rw [minDate?_perm hdates, maxDate?_perm hdates,
    runBalance_strip h (minDate? (l2.map Tx.date)) (maxDate? (l2.map Tx.date))
      (dateRange st.startDate ve) st.startBalance]

theorem calendar_congr {u : String} {s1 s2 : Store} (hA : AgreeU u s1 s2)
    (vs ve : Date) :
    get_calendar_data s1 u vs ve = get_calendar_data s2 u vs ve := by
  have hset1 : get_user_settings s1 u = get_user_settings s2 u :=
    get_user_settings_congr hA
  cases hset : get_user_settings s2 u with
  | none =>
    unfold get_calendar_data
    rw [hset1, hset]
  | some st =>
    rw [get_calendar_data_of_settings vs ve (hset1.trans hset),
      get_calendar_data_of_settings vs ve hset]
    have hperm := gata_strip_congr hA st.startDate
    have hlen : ((get_all_transactions_after s1 u st.startDate).map
        Prod.fst).length =
        ((get_all_transactions_after s2 u st.startDate).map Prod.fst).length := by
      have h1 := hperm.length_eq
      simp only [List.length_map] at h1 ⊢
      exact h1
    have hdec : ∀ (l : List Tx), l.isEmpty = decide (l.length = 0) := by
      intro l
      cases l <;> rfl
    have hempty : ((get_all_transactions_after s1 u st.startDate).map
        Prod.fst).isEmpty =
        ((get_all_transactions_after s2 u st.startDate).map Prod.fst).isEmpty := by
      rw [hdec, hdec, hlen]
    rw [hempty]
    by_cases hE : ((get_all_transactions_after s2 u st.startDate).map
        Prod.fst).isEmpty = true
    · rw [if_pos hE, if_pos hE]
    · rw [if_neg hE, if_neg hE]
      exact calendarMain_strip hperm st vs ve

theorem agree_insert {u : String} {s1 s2 : Store} (hA : AgreeU u s1 s2)
    (d : Date) (cat : Option Nat) (desc : String) (amt : Rat) (conf : Nat)
    (sid : Option Nat) :
    AgreeU u (add_transaction s1 u d cat desc amt conf sid).1
      (add_transaction s2 u d cat desc amt conf sid).1 := by
  obtain ⟨ht, hs, hst⟩ := hA
  refine ⟨?_, hs, hst⟩
  show ((s1.transactions ++
      ([⟨s1.nextTxId, u, sid, cat, d, desc, amt, conf⟩] : List Tx)).filter
        (fun t => decide (t.userId = u))).map stripTx =
    ((s2.transactions ++
      ([⟨s2.nextTxId, u, sid, cat, d, desc, amt, conf⟩] : List Tx)).filter
        (fun t => decide (t.userId = u))).map stripTx
  rw [List.filter_append, List.filter_append, List.map_append,
    List.map_append, ht]
  have hkeep : ∀ n : Nat,
      (([⟨n, u, sid, cat, d, desc, amt, conf⟩] : List Tx).filter
          (fun t => decide (t.userId = u))).map stripTx =
        ([⟨u, sid, cat, d, desc, amt, conf⟩] : List TxData) := by
    intro n
    rw [List.filter_cons, if_pos (decide_eq_true rfl)]
    rfl
  rw [hkeep, hkeep]

theorem genLoop_agree (u : String) (sch : Schedule) (E : Date) :
    ∀ (fuel : Nat) (cur : Date) (s1 s2 : Store), AgreeU u s1 s2 →
      OptAgreeU u (genLoop u sch E fuel s1 cur)
        (genLoop u sch E fuel s2 cur) := by
  intro fuel
  induction fuel with
  | zero =>
    intro cur s1 s2 hA
    rw [genLoop_zero, genLoop_zero]
    by_cases hc : cur ≤ E
    · rw [if_pos hc, if_pos hc]
      exact trivial
    · rw [if_neg hc, if_neg hc]
      exact hA
  | succ fuel ih =>
    intro cur s1 s2 hA
    rw [genLoop_succ, genLoop_succ]
    by_cases hc : cur ≤ E
    · rw [if_pos hc, if_pos hc]
      by_cases hst : sch.startDate ≤ cur
      · rw [if_pos hst, if_pos hst]
        exact ih _ _ _ (agree_insert hA cur sch.categoryId sch.description
          sch.amount 0 (some sch.scheduleId))
      · rw [if_neg hst, if_neg hst]
        exact ih _ _ _ hA
    · rw [if_neg hc, if_neg hc]
      exact hA

theorem expResume_congr {u : String} {s1 s2 : Store} (hA : AgreeU u s1 s2)
    (sch : Schedule) : expResume s1 u sch = expResume s2 u sch := by
  unfold expResume
  rw [glg_strip_congr hA sch.scheduleId]

theorem expandSchedule_agree {u : String} {s1 s2 : Store} (hA : AgreeU u s1 s2)
    (fuel : Nat) (sch : Schedule) (hz : Date) :
    OptAgreeU u (expandSchedule fuel s1 u sch hz)
      (expandSchedule fuel s2 u sch hz) := by
  unfold expandSchedule
  rw [expResume_congr hA sch]
  exact genLoop_agree u sch (expLoopEnd sch hz) fuel _ s1 s2 hA

theorem foldlM_expand_agree (u : String) (fuel : Nat) (hz : Date) :
    ∀ (scheds : List Schedule) (s1 s2 : Store), AgreeU u s1 s2 →
      OptAgreeU u
        (scheds.foldlM (fun acc sch => expandSchedule fuel acc u sch hz) s1)
        (scheds.foldlM (fun acc sch => expandSchedule fuel acc u sch hz) s2) := by
  intro scheds
  induction scheds with
  | nil =>
    intro s1 s2 hA
    exact hA
  | cons sch scheds ih =>
    intro s1 s2 hA
    have h1 := expandSchedule_agree hA fuel sch hz
    rw [List.foldlM_cons, List.foldlM_cons]
    cases he1 : expandSchedule fuel s1 u sch hz with
    | none =>
      cases he2 : expandSchedule fuel s2 u sch hz with
      | none => exact trivial
      | some t2 =>
        rw [he1, he2] at h1
        exact h1.elim
    | some t1 =>
      cases he2 : expandSchedule fuel s2 u sch hz with
      | none =>
        rw [he1, he2] at h1
        exact h1.elim
      | some t2 =>
        rw [he1, he2] at h1
        exact ih t1 t2 h1

theorem run_projection_agree {u : String} {s1 s2 : Store} (hA : AgreeU u s1 s2)
    (fuel : Nat) (hz : Date) :
    OptAgreeU u (run_projection fuel s1 u hz) (run_projection fuel s2 u hz) := by
  unfold run_projection
  have hmapid : ∀ (cats : List Category) (l : List Schedule),
      (l.map (fun r => (r, joinCategory cats r.categoryId))).map Prod.fst = l := by
    intro cats l
    rw [List.map_map]
    exact List.map_id' l
  have hsch : (get_scheduled_transactions s1 u).map Prod.fst =
      (get_scheduled_transactions s2 u).map Prod.fst := by
    unfold get_scheduled_transactions
    rw [hmapid, hmapid, hA.2.1]
  rw [hsch]
  exact foldlM_expand_agree u fuel hz _ s1 s2 hA

/-- C10: every store operation invoked with user id `u` reads only rows whose
`user_id` is `u` (the three read queries), and every write invoked by a
different user `v` leaves all of `u`'s rows in all four tables unchanged;
consequently `u`'s calendar output, and `u`'s projection run followed by the
calendar, are unaffected by the other user's `delete_category`,
`delete_scheduled_transaction` and `add_transaction`. -/
theorem c10_user_isolation (s : Store) (u v : String) (huv : v ≠ u)
    (A hz vs ve dt : Date) (cid sid : Nat) (df : Bool) (cat : Option Nat)
    (desc : String) (amt : Rat) (conf : Nat) (schid : Option Nat)
    (fuel : Nat) :
    (∀ row ∈ get_all_transactions_after s u A, row.1.userId = u) ∧
    (∀ row ∈ get_scheduled_transactions s u, row.1.userId = u) ∧
    (∀ st0, get_user_settings s u = some st0 → st0.userId = u) ∧
    userRows u (delete_category s cid v) = userRows u s ∧
    userRows u (delete_scheduled_transaction s sid v df) = userRows u s ∧
    userRows u (add_transaction s v dt cat desc amt conf schid).1 =
      userRows u s ∧
    get_calendar_data (delete_category s cid v) u vs ve =
      get_calendar_data s u vs ve ∧
    get_calendar_data (delete_scheduled_transaction s sid v df) u vs ve =
      get_calendar_data s u vs ve ∧
    get_calendar_data (add_transaction s v dt cat desc amt conf schid).1
      u vs ve = get_calendar_data s u vs ve ∧
    (run_projection fuel (delete_category s cid v) u hz).map
        (fun t => get_calendar_data t u vs ve) =
      (run_projection fuel s u hz).map (fun t => get_calendar_data t u vs ve) ∧
    (run_projection fuel (delete_scheduled_transaction s sid v df) u hz).map
        (fun t => get_calendar_data t u vs ve) =
      (run_projection fuel s u hz).map (fun t => get_calendar_data t u vs ve) ∧
    (run_projection fuel (add_transaction s v dt cat desc amt conf schid).1
        u hz).map (fun t => get_calendar_data t u vs ve) =
      (run_projection fuel s u hz).map
        (fun t => get_calendar_data t u vs ve) := by
  have hdc : AgreeU u (delete_category s cid v) s :=
    agree_of_userRows (userRows_delete_category s cid u v huv)
  have hds : AgreeU u (delete_scheduled_transaction s sid v df) s :=
    agree_of_userRows (userRows_delete_schedule s sid u v df huv)
  have hat : AgreeU u (add_transaction s v dt cat desc amt conf schid).1 s :=
    agree_of_userRows (userRows_add_other s u v huv dt cat desc amt conf schid)
  have hmap : ∀ t1 : Store, AgreeU u t1 s →
      (run_projection fuel t1 u hz).map (fun t => get_calendar_data t u vs ve) =
      (run_projection fuel s u hz).map
        (fun t => get_calendar_data t u vs ve) := by
    intro t1 hA
    have h := run_projection_agree hA fuel hz
    cases h1 : run_projection fuel t1 u hz with
    | none =>
      cases h2 : run_projection fuel s u hz with
      | none => rfl
      | some t =>
        rw [h1, h2] at h
        exact h.elim
    | some r1 =>
      cases h2 : run_projection fuel s u hz with
      | none =>
        rw [h1, h2] at h
        exact h.elim
      | some r2 =>
        rw [h1, h2] at h
        show some (get_calendar_data r1 u vs ve) =
          some (get_calendar_data r2 u vs ve)
        exact congrArg some (calendar_congr h vs ve)
  refine ⟨?_, ?_, ?_, userRows_delete_category s cid u v huv,
    userRows_delete_schedule s sid u v df huv,
    userRows_add_other s u v huv dt cat desc amt conf schid,
    calendar_congr hdc vs ve, calendar_congr hds vs ve,
    calendar_congr hat vs ve, hmap _ hdc, hmap _ hds, hmap _ hat⟩
  · intro row hrow
    rcases List.mem_map.mp (List.mem_mergeSort.mp hrow) with ⟨t, htmem, hteq⟩
    rcases List.mem_filter.mp htmem with ⟨-, hcond⟩
    rw [← hteq]
    exact (of_decide_eq_true hcond).1
  · intro row hrow
    rcases List.mem_map.mp hrow with ⟨r, hrmem, hreq⟩
    rcases List.mem_filter.mp hrmem with ⟨-, hcond⟩
    rw [← hreq]
    exact of_decide_eq_true hcond
  · intro st0 hst0
    unfold get_user_settings at hst0
    have hpa := List.find?_some hst0
    exact of_decide_eq_true hpa

theorem c10_witness :
    ("b" ≠ "a") ∧
    ((∀ row ∈ get_all_transactions_after c10Store "a" ⟨2024, 1, 1⟩,
        row.1.userId = "a") ∧
     (∀ row ∈ get_scheduled_transactions c10Store "a", row.1.userId = "a") ∧
     (∀ st0, get_user_settings c10Store "a" = some st0 → st0.userId = "a") ∧
     userRows "a" (delete_category c10Store 2 "b") = userRows "a" c10Store ∧
     userRows "a" (delete_scheduled_transaction c10Store 2 "b" true) =
       userRows "a" c10Store ∧
     userRows "a" (add_transaction c10Store "b" ⟨2024, 1, 4⟩ (some 2) "x" 1 1
       none).1 = userRows "a" c10Store ∧
     get_calendar_data (delete_category c10Store 2 "b") "a" ⟨2024, 1, 1⟩
         ⟨2024, 1, 5⟩ =
       get_calendar_data c10Store "a" ⟨2024, 1, 1⟩ ⟨2024, 1, 5⟩ ∧
     get_calendar_data (delete_scheduled_transaction c10Store 2 "b" true) "a"
         ⟨2024, 1, 1⟩ ⟨2024, 1, 5⟩ =
       get_calendar_data c10Store "a" ⟨2024, 1, 1⟩ ⟨2024, 1, 5⟩ ∧
     get_calendar_data (add_transaction c10Store "b" ⟨2024, 1, 4⟩ (some 2) "x"
         1 1 none).1 "a" ⟨2024, 1, 1⟩ ⟨2024, 1, 5⟩ =
       get_calendar_data c10Store "a" ⟨2024, 1, 1⟩ ⟨2024, 1, 5⟩ ∧
     (run_projection 50 (delete_category c10Store 2 "b") "a"
         ⟨2024, 1, 10⟩).map
         (fun t => get_calendar_data t "a" ⟨2024, 1, 1⟩ ⟨2024, 1, 5⟩) =
       (run_projection 50 c10Store "a" ⟨2024, 1, 10⟩).map
         (fun t => get_calendar_data t "a" ⟨2024, 1, 1⟩ ⟨2024, 1, 5⟩) ∧
     (run_projection 50 (delete_scheduled_transaction c10Store 2 "b" true) "a"
         ⟨2024, 1, 10⟩).map
         (fun t => get_calendar_data t "a" ⟨2024, 1, 1⟩ ⟨2024, 1, 5⟩) =
       (run_projection 50 c10Store "a" ⟨2024, 1, 10⟩).map
         (fun t => get_calendar_data t "a" ⟨2024, 1, 1⟩ ⟨2024, 1, 5⟩) ∧
     (run_projection 50 (add_transaction c10Store "b" ⟨2024, 1, 4⟩ (some 2)
         "x" 1 1 none).1 "a" ⟨2024, 1, 10⟩).map
         (fun t => get_calendar_data t "a" ⟨2024, 1, 1⟩ ⟨2024, 1, 5⟩) =
       (run_projection 50 c10Store "a" ⟨2024, 1, 10⟩).map
         (fun t => get_calendar_data t "a" ⟨2024, 1, 1⟩ ⟨2024, 1, 5⟩)) :=
  ⟨by decide,
   c10_user_isolation c10Store "a" "b" (by decide) ⟨2024, 1, 1⟩ ⟨2024, 1, 10⟩
     ⟨2024, 1, 1⟩ ⟨2024, 1, 5⟩ ⟨2024, 1, 4⟩ 2 2 true (some 2) "x" 1 1 none 50⟩

end FinCal
